import Mathlib

/-! Single-threaded semantics of `mmzq::lockfree::Queue<T>`.

Shallow embedding of `33z9/lockfree_queue.h` and `33z9/error_code.h`.

* A pointer is an `Option Nat`: `none` is `nullptr`, `some a` is the address of
  the caller-owned memory region number `a`.
* Caller-owned memory is a list of regions; a region is the list of `Element`s
  that fit into it (bytes after the last whole element are never touched).
* `uint32_t` fields are natural numbers; arithmetic on them is reduced modulo
  `2^32` exactly where the C++ code computes in `uint32_t`.
* Every operation returns `Except Fault _`: a `Fault` marks an execution that
  leaves defined single-threaded behaviour (failed `assert`, a wait loop that
  can never be released because no other thread exists, an access outside the
  mapped region, a modulo by zero).
* `compare_exchange_weak` is taken to succeed: with one thread the cursor still
  holds the value just read, and a spurious failure only repeats the same
  iteration with the same values.
-/

namespace mmzq

/-- The result codes of `error_code.h`. -/
inductive ErrorCode where
  | kSuccess
  | kFail
  | kInvalidArg
  | kInvalidCall
  deriving DecidableEq, Repr

/-- The numeric value of each enumerator. -/
def ErrorCode.toInt : ErrorCode → Int
  | .kSuccess => 0
  | .kFail => -1
  | .kInvalidArg => -2
  | .kInvalidCall => -3

namespace lockfree

/-- Executions that leave the defined single-threaded behaviour of the code. -/
inductive Fault where
  /-- An `assert` of `Store` or `Load` fails. -/
  | assertFailed
  /-- The loop of `WaitForStored` or `WaitForEmpty` can never be left. -/
  | spinForever
  /-- The expression `array_[index]` goes through `nullptr` or outside the region. -/
  | badAccess
  /-- The expression `% array_size_` is evaluated with `array_size_ == 0`. -/
  | divByZero
  /-- The drain loop of `Destroy` ran longer than the bound of the model. -/
  | outOfFuel
  deriving DecidableEq, Repr

/-- Reduction of a natural number to `uint32_t`. -/
def u32 (n : Nat) : Nat := n % 4294967296

/-- The struct `Queue<T>::Element`: the `stored` flag and the raw storage of
one value; the storage keeps its bytes when the value is destroyed. -/
structure Element (T : Type) where
  stored : Bool
  buffer : T
  deriving DecidableEq, Repr

/-- Caller-owned memory: region `a` is `mem[a]`. -/
abbrev Memory (T : Type) := List (List (Element T))

/-- The data members of `Queue<T>`. -/
structure Queue (T : Type) where
  buffer_ : Option Nat
  buffer_size_ : Nat
  array_ : Option Nat
  array_size_ : Nat
  created_ : Bool
  head_ : Nat
  tail_ : Nat
  count_ : Nat
  deriving DecidableEq, Repr

/-- A queue object together with the memory its pointers refer to. -/
structure State (T : Type) where
  self : Queue T
  mem : Memory T
  deriving DecidableEq, Repr

variable {T : Type}

/-- Read of `array_[i]` for the pointer `p`. -/
def Memory.at (mem : Memory T) (p : Option Nat) (i : Nat) : Except Fault (Element T) :=
  match p with
  | none => .error .badAccess
  | some a =>
    match mem[a]? with
    | none => .error .badAccess
    | some cells =>
      match cells[i]? with
      | none => .error .badAccess
      | some e => .ok e

/-- Write of `array_[i]` for the pointer `p`. -/
def Memory.put (mem : Memory T) (p : Option Nat) (i : Nat) (e : Element T) :
    Except Fault (Memory T) :=
  match p with
  | none => .error .badAccess
  | some a =>
    match mem[a]? with
    | none => .error .badAccess
    | some cells =>
      if i < cells.length then .ok (mem.set a (cells.set i e)) else .error .badAccess

/-- `Element::Store`: asserts the slot is empty, constructs the value in place
and sets the flag. -/
def Element.Store (e : Element T) (v : T) : Except Fault (Element T) :=
  if e.stored then .error .assertFailed
  else .ok { stored := true, buffer := v }

/-- `Element::Load`: asserts the slot is full, copies the value to a non-null
destination, destroys the value and clears the flag. Returns the slot and the
destination object afterwards. -/
def Element.Load (e : Element T) (destination : Option T) :
    Except Fault (Element T × Option T) :=
  if e.stored then
    .ok ({ stored := false, buffer := e.buffer },
         match destination with
         | some _ => some e.buffer
         | none => none)
  else .error .assertFailed

/-- `Element::WaitForStored`: returns at once on a full slot, spins forever on
an empty one. -/
def Element.WaitForStored (e : Element T) : Except Fault Unit :=
  if e.stored then .ok () else .error .spinForever

/-- `Element::WaitForEmpty`: returns at once on an empty slot, spins forever on
a full one. -/
def Element.WaitForEmpty (e : Element T) : Except Fault Unit :=
  if e.stored then .error .spinForever else .ok ()

/-- The constructor `Queue<T>::Queue()`. -/
def Queue.new : Queue T :=
  { buffer_ := none, buffer_size_ := 0, array_ := none, array_size_ := 0,
    created_ := false, head_ := 0, tail_ := 0, count_ := 0 }

/-- `Queue<T>::IsCreated`. -/
def IsCreated (s : State T) : Bool := s.self.created_

/-- `Queue<T>::Count`. -/
def Count (s : State T) : Nat := s.self.count_

/-- `Queue<T>::Capacity`. -/
def Capacity (s : State T) : Nat := s.self.array_size_

/-- The initialisation loop of `Create`, `for (i; i < array_size_; ++i)
array_[i].stored = false`, with `k` iterations left starting at index `i`. -/
def Create.init (array_ : Option Nat) : Nat → Nat → Memory T → Except Fault (Memory T)
  | _, 0, mem => .ok mem
  | i, k + 1, mem =>
    match mem.at array_ i with
    | .error f => .error f
    | .ok e =>
      match mem.put array_ i { e with stored := false } with
      | .error f => .error f
      | .ok mem1 => Create.init array_ (i + 1) k mem1

/-- `Queue<T>::Create`; `sizeofElement` is `sizeof(Element)`. -/
def Create (sizeofElement : Nat) (s : State T) (buffer : Option Nat)
    (buffer_size_in_bytes : Nat) : Except Fault (ErrorCode × State T) :=
  if IsCreated s then .ok (.kInvalidCall, s)
  else if buffer = none ∨ buffer_size_in_bytes < sizeofElement then .ok (.kInvalidArg, s)
  else
    let q1 : Queue T :=
      { s.self with
        buffer_ := buffer
        buffer_size_ := buffer_size_in_bytes
        array_ := buffer
        array_size_ := u32 (buffer_size_in_bytes / sizeofElement)
        head_ := 0
        tail_ := 0
        count_ := 0 }
    match Create.init q1.array_ 0 q1.array_size_ s.mem with
    | .error f => .error f
    | .ok mem1 => .ok (.kSuccess, { self := { q1 with created_ := true }, mem := mem1 })

/-- `Queue<T>::Push`. -/
def Push (s : State T) (v : T) : Except Fault (ErrorCode × State T) :=
  if !IsCreated s then .ok (.kInvalidCall, s)
  else
    let index := s.self.head_
    if s.self.array_size_ = 0 then .error .divByZero
    else
      let next_index := u32 (index + 1) % s.self.array_size_
      if next_index = s.self.tail_ then .ok (.kFail, s)
      else
        let q1 : Queue T := { s.self with head_ := next_index }
        match s.mem.at q1.array_ index with
        | .error f => .error f
        | .ok e =>
          match e.WaitForEmpty with
          | .error f => .error f
          | .ok _ =>
            let q2 : Queue T := { q1 with count_ := u32 (q1.count_ + 1) }
            match e.Store v with
            | .error f => .error f
            | .ok e1 =>
              match s.mem.put q2.array_ index e1 with
              | .error f => .error f
              | .ok mem1 => .ok (.kSuccess, { self := q2, mem := mem1 })

/-- `Queue<T>::Pop`; the destination is `none` for `nullptr` and `some d` for a
pointer to an object holding `d`. Returns the destination object afterwards. -/
def Pop (s : State T) (destination : Option T) :
    Except Fault (ErrorCode × State T × Option T) :=
  if !IsCreated s then .ok (.kInvalidCall, s, destination)
  else
    let index := s.self.tail_
    if index = s.self.head_ then .ok (.kFail, s, destination)
    else if s.self.array_size_ = 0 then .error .divByZero
    else
      let next_index := u32 (index + 1) % s.self.array_size_
      let q1 : Queue T := { s.self with tail_ := next_index }
      match s.mem.at q1.array_ index with
      | .error f => .error f
      | .ok e =>
        match e.WaitForStored with
        | .error f => .error f
        | .ok _ =>
          let q2 : Queue T := { q1 with count_ := u32 (q1.count_ + 4294967296 - 1) }
          match e.Load destination with
          | .error f => .error f
          | .ok (e1, d1) =>
            match s.mem.put q2.array_ index e1 with
            | .error f => .error f
            | .ok mem1 => .ok (.kSuccess, { self := q2, mem := mem1 }, d1)

/-- The loop `while (kSuccess == Pop(nullptr))` of `Destroy`, bounded by `fuel`
iterations. -/
def Destroy.drain : Nat → State T → Except Fault (State T)
  | 0, _ => .error .outOfFuel
  | fuel + 1, s =>
    match Pop s none with
    | .error f => .error f
    | .ok (.kSuccess, s1, _) => Destroy.drain fuel s1
    | .ok (_, s1, _) => .ok s1

/-- Number of elements of the region a pointer refers to. -/
def Memory.extent (mem : Memory T) (p : Option Nat) : Nat :=
  match p with
  | none => 0
  | some a =>
    match mem[a]? with
    | none => 0
    | some cells => cells.length

/-- `Queue<T>::Destroy`. Every successful `Pop` clears one full slot of the
mapped region, so one more iteration than the region has elements is enough for
the drain loop (`Destroy_fuel` below). -/
def Destroy (s : State T) : Except Fault (ErrorCode × State T) :=
  match Destroy.drain (s.mem.extent s.self.array_ + 1) s with
  | .error f => .error f
  | .ok s1 =>
    .ok (.kSuccess,
      { self :=
          { s1.self with
            buffer_ := none
            buffer_size_ := 0
            array_ := none
            array_size_ := 0
            head_ := 0
            tail_ := 0
            count_ := 0
            created_ := false }
        mem := s1.mem })

/-! ## Observations, invariant and reference model -/

/-- The slots `array_[0]`, ..., `array_[array_size_ - 1]` the queue is mapped on. -/
def slots (s : State T) : List (Element T) :=
  match s.self.array_ with
  | none => []
  | some a =>
    match s.mem[a]? with
    | none => []
    | some cells => cells.take s.self.array_size_

/-- Number of slots of the queue whose `stored` flag is set. -/
def storedCount (s : State T) : Nat := (slots s).countP (fun e => e.stored)

/-- Index `i` lies in the cyclic range from `t` (inclusive) to `h` (exclusive). -/
def Occupied (t h i : Nat) : Prop :=
  if t ≤ h then t ≤ i ∧ i < h else t ≤ i ∨ i < h

/-- Length of the cyclic range from `t` to `h` in a ring of `N` positions. -/
def occupancy (N t h : Nat) : Nat :=
  if t ≤ h then h - t else h + N - t

/-- The values held by `k` consecutive ring positions starting at `t`. -/
def ringValues (cells : List (Element T)) (N : Nat) : Nat → Nat → List T
  | _, 0 => []
  | t, k + 1 =>
    match cells[t]? with
    | some e => e.buffer :: ringValues cells N ((t + 1) % N) k
    | none => ringValues cells N ((t + 1) % N) k

/-- Consistency of a mapped ring: `N` slots, cursors `t` and `h`, counter `c`. -/
structure RingInv (N t h c : Nat) (cells : List (Element T)) : Prop where
  pos : 0 < N
  small : N < 4294967296
  fits : N ≤ cells.length
  head_lt : h < N
  tail_lt : t < N
  flags : ∀ i, i < N → ∀ e, cells[i]? = some e → (e.stored = true ↔ Occupied t h i)
  count : c = occupancy N t h
  full : (cells.take N).countP (fun e => e.stored) = occupancy N t h

/-- The invariant of the queue: an uncreated queue has the field values of the
constructor; a created queue is mapped on a region holding a consistent ring. -/
def Inv (s : State T) : Prop :=
  (s.self.created_ = false → s.self = Queue.new) ∧
  (s.self.created_ = true → ∃ a cells, s.self.array_ = some a ∧ s.mem[a]? = some cells ∧
      RingInv s.self.array_size_ s.self.tail_ s.self.head_ s.self.count_ cells)

/-- The states a queue object can be in: constructed over any memory, then used
through its public member functions with arguments of their C++ types; while
the queue is not created the caller may write to its own memory. -/
inductive Reachable (sizeofElement : Nat) : State T → Prop where
  | fresh (mem : Memory T) : Reachable sizeofElement { self := Queue.new, mem := mem }
  | caller (s : State T) (mem : Memory T) :
      Reachable sizeofElement s → IsCreated s = false →
      Reachable sizeofElement { self := s.self, mem := mem }
  | create (s s1 : State T) (buffer : Option Nat) (size : Nat) (c : ErrorCode) :
      Reachable sizeofElement s → size < 4294967296 →
      Create sizeofElement s buffer size = .ok (c, s1) → Reachable sizeofElement s1
  | destroy (s s1 : State T) (c : ErrorCode) :
      Reachable sizeofElement s → Destroy s = .ok (c, s1) → Reachable sizeofElement s1
  | push (s s1 : State T) (v : T) (c : ErrorCode) :
      Reachable sizeofElement s → Push s v = .ok (c, s1) → Reachable sizeofElement s1
  | pop (s s1 : State T) (d d1 : Option T) (c : ErrorCode) :
      Reachable sizeofElement s → Pop s d = .ok (c, s1, d1) → Reachable sizeofElement s1

/-- A call of `Push` or `Pop`. -/
inductive Op (T : Type) where
  | push (v : T)
  | pop (destination : Option T)
  deriving DecidableEq, Repr

/-- What the caller sees of one call: the result code and, for `Pop`, the
destination object afterwards. -/
structure Reply (T : Type) where
  code : ErrorCode
  destination : Option T
  deriving DecidableEq, Repr

/-- Runs a sequence of `Push` and `Pop` calls, collecting what each returns. -/
def runOps : State T → List (Op T) → Except Fault (List (Reply T) × State T)
  | s, [] => .ok ([], s)
  | s, .push v :: ops =>
    match Push s v with
    | .error f => .error f
    | .ok (c, s1) =>
      match runOps s1 ops with
      | .error f => .error f
      | .ok (rs, s2) => .ok ({ code := c, destination := none } :: rs, s2)
  | s, .pop d :: ops =>
    match Pop s d with
    | .error f => .error f
    | .ok (c, s1, d1) =>
      match runOps s1 ops with
      | .error f => .error f
      | .ok (rs, s2) => .ok ({ code := c, destination := d1 } :: rs, s2)

/-- Reference FIFO list bounded at `bound` values: `Push`. -/
def FifoRef.push (bound : Nat) (l : List T) (v : T) : ErrorCode × List T :=
  if l.length < bound then (.kSuccess, l ++ [v]) else (.kFail, l)

/-- Reference FIFO list: `Pop` with a destination (`none` for null). -/
def FifoRef.pop (l : List T) (destination : Option T) : ErrorCode × List T × Option T :=
  match l with
  | [] => (.kFail, [], destination)
  | x :: rest =>
    (.kSuccess, rest,
      match destination with
      | some _ => some x
      | none => none)

/-- Reference FIFO list: the replies to a sequence of calls. -/
def FifoRef.run (bound : Nat) : List T → List (Op T) → List (Reply T)
  | _, [] => []
  | l, .push v :: ops =>
    { code := (FifoRef.push bound l v).1, destination := none } ::
      FifoRef.run bound (FifoRef.push bound l v).2 ops
  | l, .pop d :: ops =>
    { code := (FifoRef.pop l d).1, destination := (FifoRef.pop l d).2.2 } ::
      FifoRef.run bound (FifoRef.pop l d).2.1 ops

/-- The created queue `s` of capacity `N` represents the FIFO list `l`: the values
of the ring positions from `tail_` up to `head_`, oldest first. -/
def Abs (s : State T) (N : Nat) (l : List T) : Prop :=
  s.self.created_ = true ∧ s.self.array_size_ = N ∧
  ∃ a cells, s.self.array_ = some a ∧ s.mem[a]? = some cells ∧
    RingInv N s.self.tail_ s.self.head_ s.self.count_ cells ∧
    ringValues cells N s.self.tail_ (occupancy N s.self.tail_ s.self.head_) = l

/-- Number of elements with the `stored` flag set in the whole region the queue
points to. -/
def regionStored (s : State T) : Nat :=
  match s.self.array_ with
  | none => 0
  | some a =>
    match s.mem[a]? with
    | none => 0
    | some cells => cells.countP (fun e => e.stored)

/-- The `k` consecutive ring positions starting at `t`. -/
def ringIndices (N : Nat) : Nat → Nat → List Nat
  | _, 0 => []
  | t, k + 1 => t :: ringIndices N ((t + 1) % N) k

/-- The slot positions the drain loop of `Destroy` pops, in order: the value of
`tail_` before every iteration whose `Pop(nullptr)` returns `kSuccess`. -/
def Destroy.drained : Nat → State T → List Nat
  | 0, _ => []
  | fuel + 1, s =>
    match Pop s none with
    | .ok (.kSuccess, s1, _) => s.self.tail_ :: Destroy.drained fuel s1
    | _ => []

/-- The slot positions popped by one call of `Destroy`. -/
def Destroy.pops (s : State T) : List Nat :=
  Destroy.drained (s.mem.extent s.self.array_ + 1) s

/-- The reply of a call that returns `kFail`: a `Pop` leaves its destination
object as it was. -/
def Op.failed : Op T → Reply T
  | .push _ => { code := .kFail, destination := none }
  | .pop d => { code := .kFail, destination := d }

/-! ## Interleaved execution

One call of `Push` or `Pop` in progress is a `Thread`: the statement the call
will execute next together with its local variables `index`, `next_index` and
the arguments. A step executes the statements up to and including one access
to the shared queue, so a schedule of steps is an interleaving in which every
access takes effect at once. A wait loop that finds its flag unchanged stays
where it is and can be scheduled again; a compare-and-swap fails only when the
cursor differs from `index`, and then reloads `index` and repeats the loop body. -/

/-- A call of `Push` or `Pop` in progress. -/
inductive Thread (T : Type) where
  /-- `Push` before `if (!IsCreated())`. -/
  | pushEntry (v : T)
  /-- `Push` before `index = head_.load(...)`. -/
  | pushLoad (v : T)
  /-- `Push` at the top of the `do` body, before `next_index == tail_`. -/
  | pushCheck (v : T) (index : Nat)
  /-- `Push` before `head_.compare_exchange_weak(index, next_index, ...)`. -/
  | pushCas (v : T) (index next_index : Nat)
  /-- `Push` in `array_[index].WaitForEmpty()`. -/
  | pushWait (v : T) (index : Nat)
  /-- `Push` before `++count_`. -/
  | pushCount (v : T) (index : Nat)
  /-- `Push` before `array_[index].Store(...)`. -/
  | pushStore (v : T) (index : Nat)
  /-- `Pop` before `if (!IsCreated())`. -/
  | popEntry (destination : Option T)
  /-- `Pop` before `index = tail_.load(...)`. -/
  | popLoad (destination : Option T)
  /-- `Pop` at the top of the `do` body, before `index == head_`. -/
  | popCheck (destination : Option T) (index : Nat)
  /-- `Pop` before `tail_.compare_exchange_weak(index, next_index, ...)`. -/
  | popCas (destination : Option T) (index next_index : Nat)
  /-- `Pop` in `array_[index].WaitForStored()`. -/
  | popWait (destination : Option T) (index : Nat)
  /-- `Pop` before `--count_`. -/
  | popCount (destination : Option T) (index : Nat)
  /-- `Pop` before `array_[index].Load(destination)`. -/
  | popSlot (destination : Option T) (index : Nat)
  /-- The call of `Push` has returned `code`. -/
  | pushDone (code : ErrorCode)
  /-- The call of `Pop` has returned `code`, leaving the destination object as given. -/
  | popDone (code : ErrorCode) (destination : Option T)
  deriving DecidableEq, Repr

/-- One step of a call on the shared state. -/
def Thread.step (s : State T) : Thread T → Except Fault (State T × Thread T)
  | .pushEntry v =>
    if !IsCreated s then .ok (s, .pushDone .kInvalidCall) else .ok (s, .pushLoad v)
  | .pushLoad v => .ok (s, .pushCheck v s.self.head_)
  | .pushCheck v index =>
    if s.self.array_size_ = 0 then .error .divByZero
    else
      let next_index := u32 (index + 1) % s.self.array_size_
      if next_index = s.self.tail_ then .ok (s, .pushDone .kFail)
      else .ok (s, .pushCas v index next_index)
  | .pushCas v index next_index =>
    if s.self.head_ = index then
      .ok ({ s with self := { s.self with head_ := next_index } }, .pushWait v index)
    else .ok (s, .pushCheck v s.self.head_)
  | .pushWait v index =>
    match s.mem.at s.self.array_ index with
    | .error f => .error f
    | .ok e => if e.stored then .ok (s, .pushWait v index) else .ok (s, .pushCount v index)
  | .pushCount v index =>
    .ok ({ s with self := { s.self with count_ := u32 (s.self.count_ + 1) } },
      .pushStore v index)
  | .pushStore v index =>
    match s.mem.at s.self.array_ index with
    | .error f => .error f
    | .ok e =>
      match e.Store v with
      | .error f => .error f
      | .ok e1 =>
        match s.mem.put s.self.array_ index e1 with
        | .error f => .error f
        | .ok mem1 => .ok ({ s with mem := mem1 }, .pushDone .kSuccess)
  | .popEntry d =>
    if !IsCreated s then .ok (s, .popDone .kInvalidCall d) else .ok (s, .popLoad d)
  | .popLoad d => .ok (s, .popCheck d s.self.tail_)
  | .popCheck d index =>
    if index = s.self.head_ then .ok (s, .popDone .kFail d)
    else if s.self.array_size_ = 0 then .error .divByZero
    else .ok (s, .popCas d index (u32 (index + 1) % s.self.array_size_))
  | .popCas d index next_index =>
    if s.self.tail_ = index then
      .ok ({ s with self := { s.self with tail_ := next_index } }, .popWait d index)
    else .ok (s, .popCheck d s.self.tail_)
  | .popWait d index =>
    match s.mem.at s.self.array_ index with
    | .error f => .error f
    | .ok e => if e.stored then .ok (s, .popCount d index) else .ok (s, .popWait d index)
  | .popCount d index =>
    .ok ({ s with self := { s.self with count_ := u32 (s.self.count_ + 4294967296 - 1) } },
      .popSlot d index)
  | .popSlot d index =>
    match s.mem.at s.self.array_ index with
    | .error f => .error f
    | .ok e =>
      match e.Load d with
      | .error f => .error f
      | .ok (e1, d1) =>
        match s.mem.put s.self.array_ index e1 with
        | .error f => .error f
        | .ok mem1 => .ok ({ s with mem := mem1 }, .popDone .kSuccess d1)
  | .pushDone c => .ok (s, .pushDone c)
  | .popDone c d => .ok (s, .popDone c d)

/-- Runs one call alone for `n` steps. -/
def Thread.solo : Nat → State T → Thread T → Except Fault (State T × Thread T)
  | 0, s, th => .ok (s, th)
  | n + 1, s, th =>
    match th.step s with
    | .error f => .error f
    | .ok (s1, th1) => Thread.solo n s1 th1

/-- The shared queue and the calls in progress on it. -/
structure Config (T : Type) where
  state : State T
  threads : List (Thread T)
  deriving DecidableEq, Repr

/-- The scheduler lets call number `i` take one step. -/
def Config.step (c : Config T) (i : Nat) : Except Fault (Config T) :=
  match c.threads[i]? with
  | none => .ok c
  | some th =>
    match th.step c.state with
    | .error f => .error f
    | .ok (s1, th1) => .ok { state := s1, threads := c.threads.set i th1 }

/-- Runs a schedule: the list of the calls that step, in order. -/
def Config.run : Config T → List Nat → Except Fault (Config T)
  | c, [] => .ok c
  | c, i :: rest =>
    match c.step i with
    | .error f => .error f
    | .ok c1 => Config.run c1 rest

/-- Number of calls of `Push` that have returned `kSuccess`. -/
def Config.pushed (c : Config T) : Nat :=
  c.threads.countP (fun th =>
    match th with
    | .pushDone .kSuccess => true
    | _ => false)

/-- Number of calls of `Pop` that have returned `kSuccess`. -/
def Config.popped (c : Config T) : Nat :=
  c.threads.countP (fun th =>
    match th with
    | .popDone .kSuccess _ => true
    | _ => false)

/-- Every call of the configuration has returned. -/
def Config.finished (c : Config T) : Bool :=
  c.threads.all (fun th =>
    match th with
    | .pushDone _ => true
    | .popDone _ _ => true
    | _ => false)

/-! ## Concrete inputs -/

/-- A region of four elements with arbitrary previous contents. -/
def exampleRegion : List (Element Nat) :=
  [{ stored := true, buffer := 7 }, { stored := false, buffer := 0 },
   { stored := true, buffer := 9 }, { stored := true, buffer := 1 }]

/-- A freshly constructed queue next to that region. -/
def exampleFresh : State Nat := { self := Queue.new, mem := [exampleRegion] }

/-- The queue after `Create` on the region with `sizeof(Element) = 8` and 32 bytes. -/
def exampleCreated : State Nat :=
  { self := { buffer_ := some 0, buffer_size_ := 32, array_ := some 0, array_size_ := 4,
              created_ := true, head_ := 0, tail_ := 0, count_ := 0 }
    mem := [[{ stored := false, buffer := 7 }, { stored := false, buffer := 0 },
             { stored := false, buffer := 9 }, { stored := false, buffer := 1 }]] }

/-- The created queue after pushing 1, 2 and 3: all three usable slots are full. -/
def exampleFull : State Nat :=
  { self := { buffer_ := some 0, buffer_size_ := 32, array_ := some 0, array_size_ := 4,
              created_ := true, head_ := 3, tail_ := 0, count_ := 3 }
    mem := [[{ stored := true, buffer := 1 }, { stored := true, buffer := 2 },
             { stored := true, buffer := 3 }, { stored := false, buffer := 1 }]] }

/-- The calls of the concrete scenario: push 1, 2, 3, 4; pop twice; push 4; pop
three times. Every pop has a destination object that holds 0 before the call. -/
def exampleCalls : List (Op Nat) :=
  [.push 1, .push 2, .push 3, .push 4, .pop (some 0), .pop (some 0), .push 4,
   .pop (some 0), .pop (some 0), .pop (some 0)]

/-- The queue after `Create` on the region with `sizeof(Element) = 8` and only 8
bytes: one slot. -/
def exampleOneSlot : State Nat :=
  { self := { buffer_ := some 0, buffer_size_ := 8, array_ := some 0, array_size_ := 1,
              created_ := true, head_ := 0, tail_ := 0, count_ := 0 }
    mem := [[{ stored := false, buffer := 7 }, { stored := false, buffer := 0 },
             { stored := true, buffer := 9 }, { stored := true, buffer := 1 }]] }

/-- The queue after `Create` on the region with `sizeof(Element) = 8` and 16
bytes: two slots, one of them usable. -/
def exampleTwoSlots : State Nat :=
  { self := { buffer_ := some 0, buffer_size_ := 16, array_ := some 0, array_size_ := 2,
              created_ := true, head_ := 0, tail_ := 0, count_ := 0 }
    mem := [[{ stored := false, buffer := 7 }, { stored := false, buffer := 0 },
             { stored := true, buffer := 9 }, { stored := true, buffer := 1 }]] }

/-- Five concurrent calls: `Push(1)`, `Push(2)`, `Pop(&d)`, `Push(3)`, `Pop(&d)`;
each destination object holds 0 before the call. -/
def abaCalls : List (Thread Nat) :=
  [.pushEntry 1, .pushEntry 2, .popEntry (some 0), .pushEntry 3, .popEntry (some 0)]

/-- A schedule of the five calls: call 0 reads `head_`, finds the ring not full
and is delayed before its compare-and-swap; calls 1, 2 and 3 run to their end,
which takes `head_` once around the ring; call 0 resumes; call 4 runs. -/
def abaSchedule : List Nat :=
  [0, 0, 0,
   1, 1, 1, 1, 1, 1, 1,
   2, 2, 2, 2, 2, 2, 2,
   3, 3, 3, 3, 3, 3, 3,
   0, 0, 0, 0,
   4, 4, 4]

/-- The queue at the end of `abaSchedule`: both slots are full and
`head_ == tail_`. -/
def abaFinal : State Nat :=
  { self := { buffer_ := some 0, buffer_size_ := 16, array_ := some 0, array_size_ := 2,
              created_ := true, head_ := 1, tail_ := 1, count_ := 2 }
    mem := [[{ stored := true, buffer := 1 }, { stored := true, buffer := 3 },
             { stored := true, buffer := 9 }, { stored := true, buffer := 1 }]] }

/-- The configuration at the end of `abaSchedule`: every call has returned. -/
def abaEnd : Config Nat :=
  { state := abaFinal
    threads := [.pushDone .kSuccess, .pushDone .kSuccess, .popDone .kSuccess (some 2),
                .pushDone .kSuccess, .popDone .kFail (some 0)] }

/-- Seven concurrent calls, the pushes carrying the values 1 to 5. -/
def assertCalls : List (Thread Nat) :=
  [.pushEntry 1, .pushEntry 2, .popEntry (some 0), .pushEntry 3,
   .pushEntry 4, .popEntry (some 0), .pushEntry 5]

/-- A schedule of `assertCalls` in which call 0, delayed before its
compare-and-swap, and call 6 both pass `WaitForEmpty` on slot 0 before either
stores. -/
def assertSchedule : List Nat :=
  [0, 0, 0,
   1, 1, 1, 1, 1, 1, 1,
   2, 2, 2, 2, 2, 2, 2,
   3, 3, 3, 3, 3, 3, 3,
   0, 0, 0,
   4, 4, 4, 4,
   5, 5, 5, 5, 5, 5, 5,
   4, 4, 4,
   6, 6, 6, 6, 6, 6,
   0,
   6]

/-! ## Memory lemmas -/

theorem Memory.at_ok (mem : Memory T) (a i : Nat) (cells : List (Element T)) (e : Element T)
    (hm : mem[a]? = some cells) (he : cells[i]? = some e) :
    mem.at (some a) i = .ok e := by
  simp [Memory.at, hm, he]

theorem Memory.put_ok (mem : Memory T) (a i : Nat) (cells : List (Element T)) (e : Element T)
    (hm : mem[a]? = some cells) (hi : i < cells.length) :
    mem.put (some a) i e = .ok (mem.set a (cells.set i e)) := by
  simp [Memory.put, hm, hi]

theorem Memory.set_get (mem : Memory T) (a : Nat) (cells c1 : List (Element T))
    (hm : mem[a]? = some cells) : (mem.set a c1)[a]? = some c1 := by
  have h : a < mem.length := by
    rcases List.getElem?_eq_some.mp hm with ⟨h, _⟩
    exact h
  simp [List.getElem?_set_self h]

theorem succ_mod_ring (N h : Nat) (hh : h < N) :
    (h + 1) % N = if h + 1 = N then 0 else h + 1 := by
  split
  · next e => rw [e]; exact Nat.mod_self N
  · next e => exact Nat.mod_eq_of_lt (by omega)

theorem u32_small (n : Nat) (h : n < 4294967296) : u32 n = n := by
  unfold u32
  exact Nat.mod_eq_of_lt h

theorem countP_take_set (cells : List (Element T)) (N i : Nat) (e e1 : Element T)
    (hi : i < N) (hN : N ≤ cells.length) (hc : cells[i]? = some e) :
    ((cells.set i e1).take N).countP (fun x => x.stored)
      = (cells.take N).countP (fun x => x.stored)
        - (if e.stored = true then 1 else 0) + (if e1.stored = true then 1 else 0) := by
  have hlen : i < (cells.take N).length := by
    rw [List.length_take]; omega
  have hget : (cells.take N)[i] = e := by
    rcases List.getElem?_eq_some.mp hc with ⟨h, he⟩
    rw [List.getElem_take]
    exact he
  rw [List.set_take, List.countP_set _ _ _ _ hlen, hget]

/-! ## Ring arithmetic -/

theorem occupancy_lt (N t h : Nat) (ht : t < N) (hh : h < N) : occupancy N t h < N := by
  unfold occupancy
  split <;> omega

theorem Occupied_self (t h : Nat) : ¬ Occupied t h h := by
  unfold Occupied
  split <;> omega

theorem Occupied_tail (t h : Nat) (hne : t ≠ h) : Occupied t h t := by
  unfold Occupied
  split <;> omega

/-! ## Push on a consistent ring -/

theorem Push_ring (s : State T) (v : T) (a : Nat) (cells : List (Element T))
    (hc : s.self.created_ = true) (ha : s.self.array_ = some a) (hm : s.mem[a]? = some cells)
    (R : RingInv s.self.array_size_ s.self.tail_ s.self.head_ s.self.count_ cells) :
    Push s v =
      if occupancy s.self.array_size_ s.self.tail_ s.self.head_ < s.self.array_size_ - 1 then
        .ok (.kSuccess,
          { self := { s.self with
                      head_ := if s.self.head_ + 1 = s.self.array_size_ then 0
                               else s.self.head_ + 1
                      count_ := s.self.count_ + 1 }
            mem := s.mem.set a (cells.set s.self.head_ { stored := true, buffer := v }) })
      else .ok (.kFail, s) := by
  obtain ⟨hpos, hsmall, hfits, hh, ht, hflags, hcount, hfull⟩ := R
  have hN : s.self.array_size_ ≠ 0 := by omega
  have hu : u32 (s.self.head_ + 1) = s.self.head_ + 1 := u32_small _ (by omega)
  have hlen : s.self.head_ < cells.length := by omega
  have hget : cells[s.self.head_]? = some cells[s.self.head_] := List.getElem?_eq_getElem hlen
  have hst : (cells[s.self.head_]).stored = false := by
    have := (hflags _ hh _ hget)
    have hno := Occupied_self s.self.tail_ s.self.head_
    cases hb : (cells[s.self.head_]).stored
    · rfl
    · exact absurd (this.mp hb) hno
  have hcu : u32 (s.self.count_ + 1) = s.self.count_ + 1 := by
    apply u32_small
    have := occupancy_lt _ _ _ ht hh
    omega
  unfold Push
  simp only [IsCreated, hc, hN, hu, succ_mod_ring _ _ hh, ha,
    Memory.at_ok _ _ _ _ _ hm hget, Element.WaitForEmpty, hst, Element.Store,
    Memory.put_ok _ _ _ _ _ hm hlen, hcu]
  unfold occupancy
  by_cases h1 : s.self.head_ + 1 = s.self.array_size_
  · simp only [h1, if_true]
    by_cases h2 : 0 = s.self.tail_
    · have : ¬ (if s.self.tail_ ≤ s.self.head_ then s.self.head_ - s.self.tail_
          else s.self.head_ + s.self.array_size_ - s.self.tail_) < s.self.array_size_ - 1 := by
        split <;> omega
      simp [h2, this]
    · have : (if s.self.tail_ ≤ s.self.head_ then s.self.head_ - s.self.tail_
          else s.self.head_ + s.self.array_size_ - s.self.tail_) < s.self.array_size_ - 1 := by
        split <;> omega
      simp [h2, this]
  · simp only [h1, if_false]
    by_cases h2 : s.self.head_ + 1 = s.self.tail_
    · have : ¬ (if s.self.tail_ ≤ s.self.head_ then s.self.head_ - s.self.tail_
          else s.self.head_ + s.self.array_size_ - s.self.tail_) < s.self.array_size_ - 1 := by
        split <;> omega
      simp [h2, this]
    · have : (if s.self.tail_ ≤ s.self.head_ then s.self.head_ - s.self.tail_
          else s.self.head_ + s.self.array_size_ - s.self.tail_) < s.self.array_size_ - 1 := by
        split <;> omega
      simp [h2, this]

/-! ## Pop on a consistent ring -/

theorem Pop_ring (s : State T) (d : Option T) (a : Nat) (cells : List (Element T))
    (e : Element T)
    (hc : s.self.created_ = true) (ha : s.self.array_ = some a) (hm : s.mem[a]? = some cells)
    (R : RingInv s.self.array_size_ s.self.tail_ s.self.head_ s.self.count_ cells)
    (he : cells[s.self.tail_]? = some e) :
    Pop s d =
      if s.self.tail_ = s.self.head_ then .ok (.kFail, s, d)
      else
        .ok (.kSuccess,
          { self := { s.self with
                      tail_ := if s.self.tail_ + 1 = s.self.array_size_ then 0
                               else s.self.tail_ + 1
                      count_ := s.self.count_ - 1 }
            mem := s.mem.set a (cells.set s.self.tail_ { stored := false, buffer := e.buffer }) },
          match d with
          | some _ => some e.buffer
          | none => none) := by
  obtain ⟨hpos, hsmall, hfits, hh, ht, hflags, hcount, hfull⟩ := R
  by_cases hth : s.self.tail_ = s.self.head_
  · unfold Pop
    simp [IsCreated, hc, hth]
  · have hN : s.self.array_size_ ≠ 0 := by omega
    have hu : u32 (s.self.tail_ + 1) = s.self.tail_ + 1 := u32_small _ (by omega)
    have hlen : s.self.tail_ < cells.length := by omega
    have hst : e.stored = true := (hflags _ ht _ he).mpr (Occupied_tail _ _ hth)
    have hcpos : 0 < s.self.count_ := by
      rw [hcount]; unfold occupancy; split <;> omega
    have hclt : s.self.count_ < s.self.array_size_ := by
      rw [hcount]; exact occupancy_lt _ _ _ ht hh
    have hcu : u32 (s.self.count_ + 4294967296 - 1) = s.self.count_ - 1 := by
      unfold u32; omega
    unfold Pop
    simp only [IsCreated, hc, hN, hu, succ_mod_ring _ _ ht, ha, hth,
      Memory.at_ok _ _ _ _ _ hm he, Element.WaitForStored, hst, Element.Load,
      Memory.put_ok _ _ _ _ _ hm hlen, hcu]
    simp

/-! ## Cursor advance -/

theorem Occupied_push (N t h i : Nat) (ht : t < N) (hi : i < N)
    (hroom : occupancy N t h < N - 1) :
    Occupied t (if h + 1 = N then 0 else h + 1) i ↔ (i = h ∨ Occupied t h i) := by
  unfold Occupied occupancy at *
  split_ifs at * <;> omega

theorem occupancy_push (N t h : Nat) (ht : t < N)
    (hroom : occupancy N t h < N - 1) :
    occupancy N t (if h + 1 = N then 0 else h + 1) = occupancy N t h + 1 := by
  unfold occupancy at *
  split_ifs at * <;> omega

theorem Occupied_pop (N t h i : Nat) (hh : h < N) (hi : i < N) (hne : t ≠ h) :
    Occupied (if t + 1 = N then 0 else t + 1) h i ↔ (i ≠ t ∧ Occupied t h i) := by
  unfold Occupied at *
  split_ifs at * <;> omega

theorem occupancy_pop (N t h : Nat) (ht : t < N) (hh : h < N) (hne : t ≠ h) :
    occupancy N (if t + 1 = N then 0 else t + 1) h + 1 = occupancy N t h := by
  unfold occupancy at *
  split_ifs at * <;> omega

theorem RingInv_push (N t h c : Nat) (cells : List (Element T)) (v : T)
    (R : RingInv N t h c cells) (hroom : occupancy N t h < N - 1) :
    RingInv N t (if h + 1 = N then 0 else h + 1) (c + 1)
      (cells.set h { stored := true, buffer := v }) := by
  obtain ⟨hpos, hsmall, hfits, hh, ht, hflags, hcount, hfull⟩ := R
  have hget : cells[h]? = some cells[h] := List.getElem?_eq_getElem (by omega)
  have hst : ¬ (cells[h]).stored = true := fun hb =>
    Occupied_self t h ((hflags _ hh _ hget).mp hb)
  refine ⟨hpos, hsmall, by simpa using hfits, by split <;> omega, ht, ?_, ?_, ?_⟩
  · intro i hi e he
    rw [Occupied_push N t h i ht hi hroom]
    rw [List.getElem?_set] at he
    by_cases hih : h = i
    · have hl : h < cells.length := by omega
      simp only [hih, if_true] at he
      have hl2 : i < cells.length := by omega
      simp only [hl2, if_true, Option.some.injEq] at he
      subst he
      simp [hih]
    · simp only [hih, if_false] at he
      rw [hflags i hi e he]
      constructor
      · intro h1; exact Or.inr h1
      · intro h1
        rcases h1 with h1 | h1
        · exact absurd h1.symm hih
        · exact h1
  · rw [occupancy_push N t h ht hroom, hcount]
  · rw [countP_take_set cells N h _ _ hh hfits hget, occupancy_push N t h ht hroom, hfull]
    simp [hst]

theorem RingInv_pop (N t h c : Nat) (cells : List (Element T)) (e : Element T)
    (R : RingInv N t h c cells) (hne : t ≠ h) (he : cells[t]? = some e) :
    RingInv N (if t + 1 = N then 0 else t + 1) h (c - 1)
      (cells.set t { stored := false, buffer := e.buffer }) := by
  obtain ⟨hpos, hsmall, hfits, hh, ht, hflags, hcount, hfull⟩ := R
  have hst : e.stored = true := (hflags _ ht _ he).mpr (Occupied_tail _ _ hne)
  have hocc := occupancy_pop N t h ht hh hne
  refine ⟨hpos, hsmall, by simpa using hfits, hh, by split <;> omega, ?_, ?_, ?_⟩
  · intro i hi e1 he1
    rw [Occupied_pop N t h i hh hi hne]
    rw [List.getElem?_set] at he1
    by_cases hit : t = i
    · have hl2 : i < cells.length := by omega
      simp only [hit, if_true, hl2, Option.some.injEq] at he1
      subst he1
      simp [hit]
    · simp only [hit, if_false] at he1
      rw [hflags i hi e1 he1]
      constructor
      · intro h1; exact ⟨fun h2 => hit h2.symm, h1⟩
      · intro h1; exact h1.2
  · omega
  · rw [countP_take_set cells N t _ _ ht hfits he, hfull]
    simp [hst]
    omega

/-! ## The values in the ring -/

theorem ringValues_length (cells : List (Element T)) (N : Nat) (hpos : 0 < N)
    (hfits : N ≤ cells.length) :
    ∀ k t, t < N → (ringValues cells N t k).length = k := by
  intro k
  induction k with
  | zero => intro t _; rfl
  | succ k ih =>
    intro t ht
    have hget : cells[t]? = some cells[t] := List.getElem?_eq_getElem (by omega)
    simp only [ringValues, hget, List.length_cons]
    rw [ih _ (Nat.mod_lt _ hpos)]

theorem ringValues_set_out (cells : List (Element T)) (N x : Nat) (e : Element T)
    (hx : x < N) :
    ∀ k t, t < N → k ≤ occupancy N t x →
      ringValues (cells.set x e) N t k = ringValues cells N t k := by
  intro k
  induction k with
  | zero => intro t _ _; rfl
  | succ k ih =>
    intro t ht hk
    have hne : t ≠ x := by
      intro h; subst h
      unfold occupancy at hk
      split at hk <;> omega
    have hocc := occupancy_pop N t x ht hx hne
    have hnext : (t + 1) % N < N := Nat.mod_lt _ (by omega)
    have hrec := ih ((t + 1) % N) hnext (by rw [succ_mod_ring N t ht]; omega)
    simp only [ringValues, List.getElem?_set_ne (Ne.symm hne), hrec]

theorem ringValues_push (cells : List (Element T)) (N h : Nat) (v : T)
    (hh : h < N) (hfits : N ≤ cells.length) :
    ∀ k t, t < N → occupancy N t h = k →
      ringValues (cells.set h { stored := true, buffer := v }) N t (k + 1)
        = ringValues cells N t k ++ [v] := by
  intro k
  induction k with
  | zero =>
    intro t ht hk
    have hth : t = h := by
      unfold occupancy at hk
      split at hk <;> omega
    subst hth
    have hl : t < cells.length := by omega
    simp [ringValues, List.getElem?_set_self hl]
  | succ k ih =>
    intro t ht hk
    have hne : t ≠ h := by
      intro e; subst e
      unfold occupancy at hk
      split at hk <;> omega
    have hocc := occupancy_pop N t h ht hh hne
    have hnext : (t + 1) % N < N := Nat.mod_lt _ (by omega)
    have hrec := ih ((t + 1) % N) hnext (by rw [succ_mod_ring N t ht]; omega)
    have hget : cells[t]? = some cells[t] := List.getElem?_eq_getElem (by omega)
    rw [ringValues, List.getElem?_set_ne (Ne.symm hne), hget]
    simp only
    rw [hrec]
    conv => rhs; rw [ringValues, hget]
    simp

/-! ## Simulation of the reference FIFO list -/

theorem Push_sim (s : State T) (N : Nat) (l : List T) (v : T) (A : Abs s N l) :
    ∃ s1, Push s v = .ok ((FifoRef.push (N - 1) l v).1, s1) ∧
      Abs s1 N (FifoRef.push (N - 1) l v).2 := by
  obtain ⟨hc, hN, a, cells, ha, hm, R, hl⟩ := A
  subst hN
  have hlen : l.length = occupancy s.self.array_size_ s.self.tail_ s.self.head_ := by
    rw [← hl]; exact ringValues_length cells _ R.pos R.fits _ _ R.tail_lt
  rw [Push_ring s v a cells hc ha hm R]
  unfold FifoRef.push
  rw [hlen]
  by_cases hroom : occupancy s.self.array_size_ s.self.tail_ s.self.head_
      < s.self.array_size_ - 1
  · simp only [hroom, if_true]
    refine ⟨_, rfl, hc, rfl, a, _, ha, Memory.set_get _ _ _ _ hm, RingInv_push _ _ _ _ _ v R hroom, ?_⟩
    simp only
    rw [occupancy_push _ _ _ R.tail_lt hroom,
      ringValues_push cells _ _ v R.head_lt R.fits _ _ R.tail_lt rfl, hl]
  · simp only [hroom, if_false]
    exact ⟨s, rfl, hc, rfl, a, cells, ha, hm, R, hl⟩

theorem Pop_sim (s : State T) (N : Nat) (l : List T) (d : Option T) (A : Abs s N l) :
    ∃ s1, Pop s d = .ok ((FifoRef.pop l d).1, s1, (FifoRef.pop l d).2.2) ∧
      Abs s1 N (FifoRef.pop l d).2.1 := by
  obtain ⟨hc, hN, a, cells, ha, hm, R, hl⟩ := A
  subst hN
  have hlt : s.self.tail_ < cells.length := by
    have := R.fits; have := R.tail_lt; omega
  obtain ⟨e, hget⟩ : ∃ e, cells[s.self.tail_]? = some e :=
    ⟨_, List.getElem?_eq_getElem hlt⟩
  rw [Pop_ring s d a cells e hc ha hm R hget]
  by_cases hth : s.self.tail_ = s.self.head_
  · have hocc : occupancy s.self.array_size_ s.self.tail_ s.self.head_ = 0 := by
      unfold occupancy; rw [hth]; simp
    have hnil : l = [] := by
      rw [← hl, hocc]; rfl
    subst hnil
    simp only [hth, if_true, FifoRef.pop]
    exact ⟨s, rfl, hc, rfl, a, cells, ha, hm, R, hl⟩
  · have hocc := occupancy_pop _ _ _ R.tail_lt R.head_lt hth
    have hl2 : l = e.buffer ::
        ringValues cells s.self.array_size_ ((s.self.tail_ + 1) % s.self.array_size_)
          (occupancy s.self.array_size_
            (if s.self.tail_ + 1 = s.self.array_size_ then 0 else s.self.tail_ + 1)
            s.self.head_) := by
      rw [← hl, ← hocc, ringValues, hget]
    simp only [hth, if_false]
    rw [hl2]
    simp only [FifoRef.pop]
    refine ⟨_, rfl, hc, rfl, a, _, ha, Memory.set_get _ _ _ _ hm,
      RingInv_pop _ _ _ _ _ _ R hth hget, ?_⟩
    simp only
    rw [succ_mod_ring _ _ R.tail_lt]
    apply ringValues_set_out cells _ _ _ R.tail_lt
    · have := R.tail_lt; split <;> omega
    · have h1 := R.tail_lt
      have h2 := R.head_lt
      unfold occupancy at *
      split_ifs at * <;> omega

theorem runOps_sim (ops : List (Op T)) :
    ∀ (s : State T) (N : Nat) (l : List T), Abs s N l →
      ∃ s1, runOps s ops = .ok (FifoRef.run (N - 1) l ops, s1) ∧ ∃ l1, Abs s1 N l1 := by
  induction ops with
  | nil => intro s N l A; exact ⟨s, rfl, l, A⟩
  | cons op ops ih =>
    intro s N l A
    cases op with
    | push v =>
      obtain ⟨s1, h1, A1⟩ := Push_sim s N l v A
      obtain ⟨s2, h2, A2⟩ := ih s1 N _ A1
      exact ⟨s2, by simp [runOps, h1, h2, FifoRef.run], A2⟩
    | pop d =>
      obtain ⟨s1, h1, A1⟩ := Pop_sim s N l d A
      obtain ⟨s2, h2, A2⟩ := ih s1 N _ A1
      exact ⟨s2, by simp [runOps, h1, h2, FifoRef.run], A2⟩

/-! ## Create -/

theorem Create_init_ok (a : Nat) :
    ∀ (k i : Nat) (mem : Memory T) (cells : List (Element T)),
      mem[a]? = some cells → i + k ≤ cells.length →
      ∃ cells1, Create.init (some a) i k mem = .ok (mem.set a cells1) ∧
        cells1.length = cells.length ∧
        (∀ j e, cells1[j]? = some e → i ≤ j → j < i + k → e.stored = false) ∧
        (∀ j, j < i → cells1[j]? = cells[j]?) := by
  intro k
  induction k with
  | zero =>
    intro i mem cells hm _
    refine ⟨cells, ?_, rfl, ?_, fun _ _ => rfl⟩
    · have : mem.set a cells = mem := by
        apply List.ext_getElem?
        intro n
        rw [List.getElem?_set]
        split
        · next h =>
          subst h
          have hlt : a < mem.length := (List.getElem?_eq_some.mp hm).1
          simp [hm, hlt]
        · rfl
      rw [this]; rfl
    · intro j e _ h1 h2; omega
  | succ k ih =>
    intro i mem cells hm hik
    have hi : i < cells.length := by omega
    have hget : cells[i]? = some cells[i] := List.getElem?_eq_getElem hi
    obtain ⟨cells1, h1, h2, h3, h4⟩ :=
      ih (i + 1) (mem.set a (cells.set i { cells[i] with stored := false }))
        (cells.set i { cells[i] with stored := false })
        (Memory.set_get _ _ _ _ hm) (by simp; omega)
    refine ⟨cells1, ?_, by simpa using h2, ?_, ?_⟩
    · rw [Create.init, Memory.at_ok _ _ _ _ _ hm hget]
      simp only
      rw [Memory.put_ok _ _ _ _ _ hm hi]
      simp only
      rw [h1, List.set_set]
    · intro j e he hij hjk
      by_cases hji : j = i
      · subst hji
        rw [h4 j (by omega), List.getElem?_set_self hi] at he
        cases he
        rfl
      · exact h3 j e he (by omega) (by omega)
    · intro j hj
      rw [h4 j (by omega), List.getElem?_set_ne (by omega)]

theorem Create_ok (sizeofElement : Nat) (s : State T) (a size : Nat)
    (cells : List (Element T))
    (hs : IsCreated s = false) (hm : s.mem[a]? = some cells)
    (hge : sizeofElement ≤ size) (hlt : size < 4294967296)
    (hfit : size / sizeofElement ≤ cells.length) :
    ∃ cells1, Create sizeofElement s (some a) size =
        .ok (.kSuccess,
          { self := { buffer_ := some a, buffer_size_ := size, array_ := some a,
                      array_size_ := size / sizeofElement, created_ := true,
                      head_ := 0, tail_ := 0, count_ := 0 }
            mem := s.mem.set a cells1 }) ∧
      cells1.length = cells.length ∧
      (∀ j e, cells1[j]? = some e → j < size / sizeofElement → e.stored = false) := by
  have hu : u32 (size / sizeofElement) = size / sizeofElement :=
    u32_small _ (lt_of_le_of_lt (Nat.div_le_self _ _) hlt)
  obtain ⟨cells1, h1, h2, h3, _⟩ :=
    Create_init_ok a (size / sizeofElement) 0 s.mem cells hm (by omega)
  refine ⟨cells1, ?_, h2, fun j e he hj => h3 j e he (by omega) (by omega)⟩
  unfold Create
  have hnot : ¬ size < sizeofElement := by omega
  simp only [hs, hu, h1, hnot]
  simp

theorem countP_stored_zero (cells : List (Element T)) (N : Nat)
    (h : ∀ j e, cells[j]? = some e → j < N → e.stored = false) :
    (cells.take N).countP (fun e => e.stored) = 0 := by
  rw [List.countP_eq_zero]
  intro e he
  obtain ⟨j, hj⟩ := List.mem_iff_getElem?.mp he
  rw [List.getElem?_take] at hj
  split at hj
  · next hlt => simp [h j e hj hlt]
  · cases hj

theorem RingInv_fresh (N : Nat) (cells : List (Element T)) (hpos : 0 < N)
    (hsmall : N < 4294967296) (hfits : N ≤ cells.length)
    (h : ∀ j e, cells[j]? = some e → j < N → e.stored = false) :
    RingInv N 0 0 0 cells := by
  refine ⟨hpos, hsmall, hfits, hpos, hpos, ?_, ?_, ?_⟩
  · intro i hi e he
    rw [h i e he hi]
    unfold Occupied
    simp
  · unfold occupancy; simp
  · rw [countP_stored_zero cells N h]; unfold occupancy; simp

theorem Create_init_inv (a : Nat) :
    ∀ (k i : Nat) (mem mem1 : Memory T),
      Create.init (some a) i k mem = .ok mem1 → 0 < k →
      ∃ cells, mem[a]? = some cells ∧ i + k ≤ cells.length := by
  intro k
  induction k with
  | zero => intro i mem mem1 _ h; omega
  | succ k ih =>
    intro i mem mem1 h _
    rw [Create.init] at h
    cases hm : mem[a]? with
    | none => simp [Memory.at, hm] at h
    | some cells =>
      refine ⟨cells, rfl, ?_⟩
      by_cases hi : i < cells.length
      · have hget : cells[i]? = some cells[i] := List.getElem?_eq_getElem hi
        rw [Memory.at_ok _ _ _ _ _ hm hget] at h
        simp only at h
        rw [Memory.put_ok _ _ _ _ _ hm hi] at h
        simp only at h
        by_cases hk : 0 < k
        · obtain ⟨cells2, h1, h2⟩ := ih _ _ _ h hk
          rw [Memory.set_get _ _ _ _ hm] at h1
          cases h1
          simp only [List.length_set] at h2
          omega
        · omega
      · have hget : cells[i]? = none := List.getElem?_eq_none (by omega)
        simp [Memory.at, hm, hget] at h

/-! ## The invariant holds in every reachable state -/

theorem Inv_uncreated (q : Queue T) (mem : Memory T) (h : q = Queue.new) :
    Inv { self := q, mem := mem } := by
  subst h
  exact ⟨fun _ => rfl, fun h => by simp [Queue.new] at h⟩

theorem Inv_Create (sizeofElement : Nat) (hsz : 0 < sizeofElement) (s s1 : State T)
    (buffer : Option Nat) (size : Nat) (c : ErrorCode) (hI : Inv s)
    (hlt : size < 4294967296) (h : Create sizeofElement s buffer size = .ok (c, s1)) :
    Inv s1 := by
  by_cases hc : IsCreated s = true
  · simp [Create, hc] at h
    rw [← h.2]; exact hI
  · have hc2 : IsCreated s = false := by simpa using hc
    by_cases harg : buffer = none ∨ size < sizeofElement
    · simp [Create, hc2, harg] at h
      rw [← h.2]; exact hI
    · have hb : buffer ≠ none := fun e => harg (Or.inl e)
      have hge : sizeofElement ≤ size := by
        by_contra e; exact harg (Or.inr (by omega))
      obtain ⟨a, rfl⟩ := Option.ne_none_iff_exists'.mp hb
      have hu : u32 (size / sizeofElement) = size / sizeofElement :=
        u32_small _ (lt_of_le_of_lt (Nat.div_le_self _ _) hlt)
      have hpos : 0 < size / sizeofElement := Nat.div_pos hge hsz
      cases hin : Create.init (some a) 0 (size / sizeofElement) s.mem with
      | error f =>
        have hnot : ¬ size < sizeofElement := by omega
        simp [Create, hc2, hnot, hu, hin] at h
      | ok mem1 =>
        obtain ⟨cells, hm, hfit⟩ := Create_init_inv a _ 0 s.mem mem1 hin hpos
        obtain ⟨cells1, h1, h2, h3⟩ :=
          Create_ok sizeofElement s a size cells hc2 hm hge hlt (by omega)
        rw [h1] at h
        cases h
        refine ⟨fun e => by simp at e, fun _ => ⟨a, cells1, rfl, Memory.set_get _ _ _ _ hm, ?_⟩⟩
        have hfit1 : size / sizeofElement ≤ cells1.length := by omega
        exact RingInv_fresh _ _ hpos (lt_of_le_of_lt (Nat.div_le_self _ _) hlt)
          hfit1 h3

theorem Inv_Push (s s1 : State T) (v : T) (c : ErrorCode) (hI : Inv s)
    (h : Push s v = .ok (c, s1)) : Inv s1 := by
  cases hc : s.self.created_ with
  | false =>
    simp [Push, IsCreated, hc] at h
    rw [← h.2]; exact hI
  | true =>
    obtain ⟨a, cells, ha, hm, R⟩ := hI.2 hc
    rw [Push_ring s v a cells hc ha hm R] at h
    split at h
    · next hroom =>
      cases h
      exact ⟨fun e => by simp [hc] at e,
        fun _ => ⟨a, _, ha, Memory.set_get _ _ _ _ hm, RingInv_push _ _ _ _ _ v R hroom⟩⟩
    · cases h; exact hI

theorem Inv_Pop (s s1 : State T) (d d1 : Option T) (c : ErrorCode) (hI : Inv s)
    (h : Pop s d = .ok (c, s1, d1)) : Inv s1 := by
  cases hc : s.self.created_ with
  | false =>
    simp [Pop, IsCreated, hc] at h
    rw [← h.2.1]; exact hI
  | true =>
    obtain ⟨a, cells, ha, hm, R⟩ := hI.2 hc
    have hlt : s.self.tail_ < cells.length := by
      have := R.fits; have := R.tail_lt; omega
    obtain ⟨e, hget⟩ : ∃ e, cells[s.self.tail_]? = some e :=
      ⟨_, List.getElem?_eq_getElem hlt⟩
    rw [Pop_ring s d a cells e hc ha hm R hget] at h
    split at h
    · cases h; exact hI
    · next hne =>
      cases h
      exact ⟨fun e => by simp [hc] at e,
        fun _ => ⟨a, _, ha, Memory.set_get _ _ _ _ hm, RingInv_pop _ _ _ _ _ _ R hne hget⟩⟩

theorem Destroy_self (s s1 : State T) (c : ErrorCode) (h : Destroy s = .ok (c, s1)) :
    c = .kSuccess ∧ s1.self = Queue.new := by
  unfold Destroy at h
  split at h
  · cases h
  · cases h; exact ⟨rfl, rfl⟩

theorem Reachable_Inv (sizeofElement : Nat) (hsz : 0 < sizeofElement) (s : State T)
    (h : Reachable sizeofElement s) : Inv s := by
  induction h with
  | fresh mem => exact Inv_uncreated _ _ rfl
  | caller s mem _ hc ih => exact Inv_uncreated _ _ (ih.1 hc)
  | create s s1 buffer size c _ hlt hcr ih =>
    exact Inv_Create sizeofElement hsz s s1 buffer size c ih hlt hcr
  | destroy s s1 c _ hd _ =>
    have := (Destroy_self s s1 c hd).2
    exact ⟨fun _ => this, fun e => by rw [this] at e; simp [Queue.new] at e⟩
  | push s s1 v c _ hp ih => exact Inv_Push s s1 v c ih hp
  | pop s s1 d d1 c _ hp ih => exact Inv_Pop s s1 d d1 c ih hp

/-! ## Destroy -/

theorem drain_uncreated (n : Nat) (s : State T) (hc : IsCreated s = false) :
    Destroy.drain (n + 1) s = .ok s := by
  simp [Destroy.drain, Pop, hc]

theorem Destroy_uncreated (s : State T) (hc : IsCreated s = false) :
    Destroy s = .ok (.kSuccess, { self := Queue.new, mem := s.mem }) := by
  unfold Destroy
  rw [drain_uncreated _ s hc]
  rfl

theorem drain_ring :
    ∀ (n : Nat) (s : State T) (a : Nat) (cells : List (Element T)),
      s.self.created_ = true → s.self.array_ = some a → s.mem[a]? = some cells →
      RingInv s.self.array_size_ s.self.tail_ s.self.head_ s.self.count_ cells →
      occupancy s.self.array_size_ s.self.tail_ s.self.head_ < n →
      ∃ s1, Destroy.drain n s = .ok s1 := by
  intro n
  induction n with
  | zero => intro s a cells _ _ _ _ h; omega
  | succ n ih =>
    intro s a cells hc ha hm R hocc
    have hlt : s.self.tail_ < cells.length := by
      have := R.fits; have := R.tail_lt; omega
    obtain ⟨e, hget⟩ : ∃ e, cells[s.self.tail_]? = some e :=
      ⟨_, List.getElem?_eq_getElem hlt⟩
    have hpop := Pop_ring s none a cells e hc ha hm R hget
    by_cases hth : s.self.tail_ = s.self.head_
    · simp only [hth, if_true] at hpop
      refine ⟨s, ?_⟩
      rw [Destroy.drain, hpop]
    · simp only [hth, if_false] at hpop
      have R1 := RingInv_pop _ _ _ _ _ _ R hth hget
      have ho := occupancy_pop _ _ _ R.tail_lt R.head_lt hth
      have hstep : ∃ s2 : State T, Pop s none = .ok (.kSuccess, s2, none) ∧
          s2.self.created_ = true ∧ s2.self.array_ = some a ∧
          ∃ cells2, s2.mem[a]? = some cells2 ∧
            RingInv s2.self.array_size_ s2.self.tail_ s2.self.head_ s2.self.count_ cells2 ∧
            occupancy s2.self.array_size_ s2.self.tail_ s2.self.head_ + 1
              = occupancy s.self.array_size_ s.self.tail_ s.self.head_ :=
        ⟨_, hpop, hc, ha, _, Memory.set_get _ _ _ _ hm, R1, ho⟩
      obtain ⟨s2, hp2, hc2, ha2, cells2, hm2, R2, ho2⟩ := hstep
      obtain ⟨s1, h1⟩ := ih s2 a cells2 hc2 ha2 hm2 R2 (by omega)
      refine ⟨s1, ?_⟩
      rw [Destroy.drain, hp2]
      exact h1

theorem Destroy_Inv (s : State T) (hI : Inv s) :
    ∃ mem1, Destroy s = .ok (.kSuccess, { self := Queue.new, mem := mem1 }) := by
  cases hc : s.self.created_ with
  | false => exact ⟨s.mem, Destroy_uncreated s hc⟩
  | true =>
    obtain ⟨a, cells, ha, hm, R⟩ := hI.2 hc
    have hfuel : occupancy s.self.array_size_ s.self.tail_ s.self.head_
        < s.mem.extent s.self.array_ + 1 := by
      have h1 := occupancy_lt _ _ _ R.tail_lt R.head_lt
      have h2 := R.fits
      simp only [Memory.extent, ha, hm]
      omega
    obtain ⟨s1, h1⟩ := drain_ring _ s a cells hc ha hm R hfuel
    refine ⟨s1.mem, ?_⟩
    unfold Destroy
    rw [h1]
    rfl

theorem Create_Abs (sizeofElement : Nat) (s : State T) (a size N : Nat)
    (cells : List (Element T))
    (hs : IsCreated s = false) (hm : s.mem[a]? = some cells)
    (hlt : size < 4294967296) (hcap : size / sizeofElement = N) (hN : 1 ≤ N)
    (hfit : N ≤ cells.length) :
    ∃ s0, Create sizeofElement s (some a) size = .ok (.kSuccess, s0) ∧ Capacity s0 = N ∧
      Abs s0 N [] := by
  have hge : sizeofElement ≤ size := by
    by_contra h
    rw [Nat.div_eq_of_lt (by omega)] at hcap
    omega
  obtain ⟨cells1, h1, h2, h3⟩ :=
    Create_ok sizeofElement s a size cells hs hm hge hlt (by omega)
  subst hcap
  refine ⟨_, h1, rfl, rfl, rfl, a, cells1, rfl, Memory.set_get _ _ _ _ hm, ?_, ?_⟩
  · exact RingInv_fresh _ _ hN (lt_of_le_of_lt (Nat.div_le_self _ _) hlt) (by omega) h3
  · simp [occupancy, ringValues]

theorem Abs_storedCount (s : State T) (N : Nat) (l : List T) (A : Abs s N l) :
    Capacity s = N ∧ storedCount s ≤ Capacity s - 1 := by
  obtain ⟨_, hN, a, cells, ha, hm, R, _⟩ := A
  subst hN
  refine ⟨rfl, ?_⟩
  have h1 := occupancy_lt _ _ _ R.tail_lt R.head_lt
  have h2 := R.full
  simp only [storedCount, slots, ha, hm, Capacity]
  omega

theorem take_all_empty (cells : List (Element T)) (N : Nat)
    (h : ∀ j e, cells[j]? = some e → j < N → e.stored = false) :
    ∀ e ∈ cells.take N, e.stored = false := by
  intro e he
  obtain ⟨j, hj⟩ := List.mem_iff_getElem?.mp he
  rw [List.getElem?_take] at hj
  split at hj
  · next hlt => exact h j e hj hlt
  · cases hj

/-! ## The bound of the drain loop is never reached -/

theorem Pop_success (s s1 : State T) (d d1 : Option T)
    (h : Pop s d = .ok (.kSuccess, s1, d1)) :
    ∃ a cells e, s.self.array_ = some a ∧ s.mem[a]? = some cells ∧
      cells[s.self.tail_]? = some e ∧ e.stored = true ∧ s1.self.array_ = some a ∧
      s1.mem = s.mem.set a (cells.set s.self.tail_ { stored := false, buffer := e.buffer }) := by
  unfold Pop at h
  cases hc : IsCreated s with
  | false => simp [hc] at h
  | true =>
    simp only [hc, Bool.not_true, Bool.false_eq_true, if_false] at h
    split at h
    · cases h
    · split at h
      · cases h
      · cases ha : s.self.array_ with
        | none => simp [Memory.at, ha] at h
        | some a =>
          cases hm : s.mem[a]? with
          | none => simp [Memory.at, ha, hm] at h
          | some cells =>
            cases he : cells[s.self.tail_]? with
            | none => simp [Memory.at, ha, hm, he] at h
            | some e =>
              have hlen : s.self.tail_ < cells.length := (List.getElem?_eq_some.mp he).1
              cases hst : e.stored with
              | false =>
                simp [ha, Memory.at_ok _ _ _ _ _ hm he, Element.WaitForStored, hst] at h
              | true =>
                simp only [ha, Memory.at_ok _ _ _ _ _ hm he, Element.WaitForStored, hst,
                  Element.Load, Memory.put_ok _ _ _ _ _ hm hlen, if_true] at h
                cases h
                exact ⟨a, cells, e, rfl, hm, he, hst, rfl, rfl⟩

theorem Pop_success_regionStored (s s1 : State T) (d d1 : Option T)
    (h : Pop s d = .ok (.kSuccess, s1, d1)) :
    regionStored s1 + 1 = regionStored s := by
  obtain ⟨a, cells, e, ha, hm, he, hst, ha1, hm1⟩ := Pop_success s s1 d d1 h
  have hlen : s.self.tail_ < cells.length := (List.getElem?_eq_some.mp he).1
  have hget : cells[s.self.tail_] = e := (List.getElem?_eq_some.mp he).2
  have hle := List.boole_getElem_le_countP (fun x : Element T => x.stored) cells
    s.self.tail_ hlen
  simp only [regionStored, ha, ha1, hm, hm1, Memory.set_get _ _ _ _ hm,
    List.countP_set _ _ _ _ hlen, hget, hst] at *
  simp only [if_true] at hle
  simp
  omega

theorem Memory.at_ne_fuel (mem : Memory T) (p : Option Nat) (i : Nat) :
    mem.at p i ≠ .error .outOfFuel := by
  unfold Memory.at
  intro h
  split at h
  · cases h
  · split at h
    · cases h
    · split at h <;> cases h

theorem Memory.put_ne_fuel (mem : Memory T) (p : Option Nat) (i : Nat) (e : Element T) :
    mem.put p i e ≠ .error .outOfFuel := by
  unfold Memory.put
  intro h
  split at h
  · cases h
  · split at h
    · cases h
    · split at h <;> cases h

theorem Pop_ne_fuel (s : State T) (d : Option T) : Pop s d ≠ .error .outOfFuel := by
  intro h
  unfold Pop at h
  cases hc : IsCreated s with
  | false => simp [hc] at h
  | true =>
    simp only [hc, Bool.not_true, Bool.false_eq_true, if_false] at h
    by_cases hth : s.self.tail_ = s.self.head_
    · simp [hth] at h
    · by_cases hN : s.self.array_size_ = 0
      · simp [hth, hN] at h
      · simp only [hth, hN, if_false] at h
        cases h1 : s.mem.at s.self.array_ s.self.tail_ with
        | error f =>
          simp only [h1] at h
          cases h
          exact Memory.at_ne_fuel _ _ _ h1
        | ok e =>
          simp only [h1, Element.WaitForStored, Element.Load] at h
          cases hst : e.stored with
          | false => simp [hst] at h
          | true =>
            simp only [hst, if_true] at h
            cases h2 : s.mem.put s.self.array_ s.self.tail_
                { stored := false, buffer := e.buffer } with
            | error f =>
              simp only [h2] at h
              cases h
              exact Memory.put_ne_fuel _ _ _ _ h2
            | ok m => simp [h2] at h

theorem drain_fuel :
    ∀ (n : Nat) (s : State T), regionStored s < n → Destroy.drain n s ≠ .error .outOfFuel := by
  intro n
  induction n with
  | zero => intro s h; omega
  | succ n ih =>
    intro s hn
    rw [Destroy.drain]
    cases hp : Pop s none with
    | error f =>
      simp only
      intro hf
      cases hf
      exact Pop_ne_fuel s none hp
    | ok r =>
      obtain ⟨c, s1, d1⟩ := r
      cases c with
      | kSuccess =>
        simp only
        have := Pop_success_regionStored s s1 none d1 hp
        exact ih s1 (by omega)
      | kFail => simp
      | kInvalidArg => simp
      | kInvalidCall => simp

/-- The drain loop of `Destroy` always ends within the bound of the model. -/
theorem Destroy_fuel (s : State T) : Destroy s ≠ .error .outOfFuel := by
  have hle : regionStored s < s.mem.extent s.self.array_ + 1 := by
    unfold regionStored Memory.extent
    split
    · omega
    · split
      · omega
      · exact Nat.lt_succ_of_le (List.countP_le_length _)
  have := drain_fuel _ s hle
  unfold Destroy
  split
  · next f hf =>
    intro e
    cases e
    exact this hf
  · intro e; cases e

/-! ## The claims -/

/-- C1: a freshly created queue of capacity `N ≥ 1` answers every sequence of
`Push` and `Pop` calls exactly like the reference FIFO list bounded at `N - 1`
values: same result codes, same values written to the destinations, hence the
values leave in the order they entered, also across index wraparound. -/
theorem C1_fifo_refinement (sizeofElement : Nat) (s : State T) (a size N : Nat)
    (cells : List (Element T)) (ops : List (Op T))
    (hs : IsCreated s = false) (hm : s.mem[a]? = some cells)
    (hlt : size < 4294967296) (hcap : size / sizeofElement = N) (hN : 1 ≤ N)
    (hfit : N ≤ cells.length) :
    ∃ s0 s1, Create sizeofElement s (some a) size = .ok (.kSuccess, s0) ∧ Capacity s0 = N ∧
      runOps s0 ops = .ok (FifoRef.run (N - 1) [] ops, s1) := by
  obtain ⟨s0, h1, h2, A⟩ := Create_Abs sizeofElement s a size N cells hs hm hlt hcap hN hfit
  obtain ⟨s1, h3, _⟩ := runOps_sim ops s0 N [] A
  exact ⟨s0, s1, h1, h2, h3⟩

/-- C1 at the concrete scenario: capacity 4, push 1, 2, 3, 4, pop, pop, push 4,
pop, pop, pop. -/
theorem C1_fifo_refinement_witness :
    (IsCreated exampleFresh = false ∧ exampleFresh.mem[0]? = some exampleRegion ∧
      32 < 4294967296 ∧ 32 / 8 = 4 ∧ 1 ≤ 4 ∧ 4 ≤ exampleRegion.length) ∧
    ∃ s0 s1, Create 8 exampleFresh (some 0) 32 = .ok (.kSuccess, s0) ∧ Capacity s0 = 4 ∧
      runOps s0 exampleCalls = .ok (FifoRef.run (4 - 1) [] exampleCalls, s1) :=
  ⟨⟨rfl, rfl, by decide, rfl, by decide, by decide⟩,
   C1_fifo_refinement 8 exampleFresh 0 32 4 exampleRegion exampleCalls
     rfl rfl (by decide) rfl (by decide) (by decide)⟩

/-- The replies of the reference list in the concrete scenario: three pushes
succeed, the fourth fails, the pops give 1 and 2, the push of 4 succeeds, the
pops give 3 and 4, and the last pop fails leaving its destination as it was. -/
theorem exampleCalls_replies :
    FifoRef.run 3 [] exampleCalls =
      [⟨.kSuccess, none⟩, ⟨.kSuccess, none⟩, ⟨.kSuccess, none⟩, ⟨.kFail, none⟩,
       ⟨.kSuccess, some 1⟩, ⟨.kSuccess, some 2⟩, ⟨.kSuccess, none⟩,
       ⟨.kSuccess, some 3⟩, ⟨.kSuccess, some 4⟩, ⟨.kFail, some 0⟩] ∧
    (runOps exampleCreated exampleCalls).map (fun r => r.1)
      = .ok (FifoRef.run 3 [] exampleCalls) :=
  ⟨rfl, rfl⟩

/-- C2: on a created queue whose next head position equals the tail (the ring
holds `capacity - 1` values) `Push` returns `kFail` and the whole state, queue
fields and memory, is what it was. -/
theorem C2_push_full_fails (s : State T) (v : T)
    (hc : IsCreated s = true) (hh : s.self.head_ < Capacity s)
    (hcap : Capacity s < 4294967296)
    (hfull : (s.self.head_ + 1) % Capacity s = s.self.tail_) :
    Push s v = .ok (.kFail, s) := by
  unfold Capacity at *
  have hN : s.self.array_size_ ≠ 0 := by omega
  have hu : u32 (s.self.head_ + 1) = s.self.head_ + 1 := u32_small _ (by omega)
  unfold Push
  simp [hc, hN, hu, hfull]

/-- C2 at the full queue of capacity 4. -/
theorem C2_push_full_fails_witness :
    (IsCreated exampleFull = true ∧ exampleFull.self.head_ < Capacity exampleFull ∧
      Capacity exampleFull < 4294967296 ∧
      (exampleFull.self.head_ + 1) % Capacity exampleFull = exampleFull.self.tail_) ∧
    Push exampleFull 4 = .ok (.kFail, exampleFull) :=
  ⟨⟨rfl, by decide, by decide, rfl⟩,
   C2_push_full_fails exampleFull 4 rfl (by decide) (by decide) rfl⟩

/-- C3: on a created queue with `tail_ == head_` (no value held) `Pop`, with a
destination or with null, returns `kFail` and leaves the state and the
destination object as they were. -/
theorem C3_pop_empty_fails (s : State T) (destination : Option T)
    (hc : IsCreated s = true) (hempty : s.self.tail_ = s.self.head_) :
    Pop s destination = .ok (.kFail, s, destination) := by
  unfold Pop
  simp [hc, hempty]

/-- C3 at the created, empty queue of capacity 4, with a destination and with null. -/
theorem C3_pop_empty_fails_witness :
    (IsCreated exampleCreated = true ∧
      exampleCreated.self.tail_ = exampleCreated.self.head_) ∧
    Pop exampleCreated (some 5) = .ok (.kFail, exampleCreated, some 5) ∧
    Pop exampleCreated none = .ok (.kFail, exampleCreated, none) :=
  ⟨⟨rfl, rfl⟩, C3_pop_empty_fails exampleCreated (some 5) rfl rfl,
   C3_pop_empty_fails exampleCreated none rfl rfl⟩

/-- C4: after `Create` on a buffer of `N` slot-sized units `Capacity()` is `N`,
and after any sequence of `Push` and `Pop` calls the capacity is still `N` and
at most `Capacity() - 1` slots have their `stored` flag set. -/
theorem C4_capacity_invariant (sizeofElement : Nat) (s : State T) (a size N : Nat)
    (cells : List (Element T)) (ops : List (Op T))
    (hs : IsCreated s = false) (hm : s.mem[a]? = some cells)
    (hlt : size < 4294967296) (hcap : size / sizeofElement = N) (hN : 1 ≤ N)
    (hfit : N ≤ cells.length) :
    ∃ s0 rs s1, Create sizeofElement s (some a) size = .ok (.kSuccess, s0) ∧
      Capacity s0 = N ∧ runOps s0 ops = .ok (rs, s1) ∧
      Capacity s1 = N ∧ storedCount s1 ≤ Capacity s1 - 1 := by
  obtain ⟨s0, h1, h2, A⟩ := Create_Abs sizeofElement s a size N cells hs hm hlt hcap hN hfit
  obtain ⟨s1, h3, l1, A1⟩ := runOps_sim ops s0 N [] A
  obtain ⟨h4, h5⟩ := Abs_storedCount s1 N l1 A1
  exact ⟨s0, _, s1, h1, h2, h3, h4, h5⟩

/-- C4 at capacity 4 with four pushes in a row. -/
theorem C4_capacity_invariant_witness :
    (IsCreated exampleFresh = false ∧ exampleFresh.mem[0]? = some exampleRegion ∧
      32 < 4294967296 ∧ 32 / 8 = 4 ∧ 1 ≤ 4 ∧ 4 ≤ exampleRegion.length) ∧
    ∃ s0 rs s1, Create 8 exampleFresh (some 0) 32 = .ok (.kSuccess, s0) ∧
      Capacity s0 = 4 ∧ runOps s0 [.push 1, .push 2, .push 3, .push 4] = .ok (rs, s1) ∧
      Capacity s1 = 4 ∧ storedCount s1 ≤ Capacity s1 - 1 :=
  ⟨⟨rfl, rfl, by decide, rfl, by decide, by decide⟩,
   C4_capacity_invariant 8 exampleFresh 0 32 4 exampleRegion
     [.push 1, .push 2, .push 3, .push 4] rfl rfl (by decide) rfl (by decide) (by decide)⟩

/-- C5: on an uncreated queue, `Create` with a non-null buffer of
`size_in_bytes >= sizeof(Element)` bytes returns `kSuccess`; afterwards the
capacity is `size_in_bytes / sizeof(Element)`, each of that many slots has
`stored == false`, `head_`, `tail_` and `count_` are 0 and the queue is created,
whatever the queue fields and the memory held before. -/
theorem C5_create_success (sizeofElement : Nat) (s : State T) (a size : Nat)
    (cells : List (Element T))
    (hs : IsCreated s = false) (hm : s.mem[a]? = some cells)
    (hge : sizeofElement ≤ size) (hlt : size < 4294967296)
    (hfit : size / sizeofElement ≤ cells.length) :
    ∃ s1, Create sizeofElement s (some a) size = .ok (.kSuccess, s1) ∧
      Capacity s1 = size / sizeofElement ∧
      (slots s1).length = size / sizeofElement ∧
      (∀ e ∈ slots s1, e.stored = false) ∧
      s1.self.head_ = 0 ∧ s1.self.tail_ = 0 ∧ Count s1 = 0 ∧ IsCreated s1 = true := by
  obtain ⟨cells1, h1, h2, h3⟩ := Create_ok sizeofElement s a size cells hs hm hge hlt hfit
  refine ⟨_, h1, rfl, ?_, ?_, rfl, rfl, rfl, rfl⟩
  · simp only [slots, Memory.set_get _ _ _ _ hm, List.length_take]
    omega
  · simp only [slots, Memory.set_get _ _ _ _ hm]
    exact take_all_empty cells1 _ h3

/-- C5 on a region with stale flags, and again after a `Create`, `Push`,
`Destroy` cycle on the same region. -/
theorem C5_create_success_witness :
    (IsCreated exampleFresh = false ∧ exampleFresh.mem[0]? = some exampleRegion ∧
      8 ≤ 35 ∧ 35 < 4294967296 ∧ 35 / 8 ≤ exampleRegion.length) ∧
    ∃ s1, Create 8 exampleFresh (some 0) 35 = .ok (.kSuccess, s1) ∧
      Capacity s1 = 35 / 8 ∧
      (slots s1).length = 35 / 8 ∧
      (∀ e ∈ slots s1, e.stored = false) ∧
      s1.self.head_ = 0 ∧ s1.self.tail_ = 0 ∧ Count s1 = 0 ∧ IsCreated s1 = true :=
  ⟨⟨rfl, rfl, by decide, by decide, by decide⟩,
   C5_create_success 8 exampleFresh 0 35 exampleRegion rfl rfl
     (by decide) (by decide) (by decide)⟩

/-- C6: on a created queue `Create` returns `kInvalidCall` for every argument
pair, a null buffer and an undersized size included, and the state is what it
was. -/
theorem C6_create_twice (sizeofElement : Nat) (s : State T) (buffer : Option Nat)
    (size : Nat) (hc : IsCreated s = true) :
    Create sizeofElement s buffer size = .ok (.kInvalidCall, s) := by
  unfold Create
  simp [hc]

/-- C6 at the full queue of capacity 4: a valid pair, a null buffer, an undersized size. -/
theorem C6_create_twice_witness :
    IsCreated exampleFull = true ∧
    Create 8 exampleFull (some 0) 32 = .ok (.kInvalidCall, exampleFull) ∧
    Create 8 exampleFull none 32 = .ok (.kInvalidCall, exampleFull) ∧
    Create 8 exampleFull (some 0) 7 = .ok (.kInvalidCall, exampleFull) :=
  ⟨rfl, C6_create_twice 8 exampleFull (some 0) 32 rfl,
   C6_create_twice 8 exampleFull none 32 rfl, C6_create_twice 8 exampleFull (some 0) 7 rfl⟩

/-- C7: on an uncreated queue `Create` returns `kInvalidArg` exactly when the
buffer is null or the size is below `sizeof(Element)`; the state is then what it
was, so the queue is still uncreated with capacity 0. -/
theorem C7_create_invalid_arg (sizeofElement : Nat) (s : State T) (buffer : Option Nat)
    (size : Nat) (hsz : 0 < sizeofElement) (hr : Reachable sizeofElement s)
    (hc : IsCreated s = false) :
    ((∃ s1, Create sizeofElement s buffer size = .ok (.kInvalidArg, s1)) ↔
      (buffer = none ∨ size < sizeofElement)) ∧
    (buffer = none ∨ size < sizeofElement →
      Create sizeofElement s buffer size = .ok (.kInvalidArg, s) ∧
      IsCreated s = false ∧ Capacity s = 0) := by
  have hnew : s.self = Queue.new := (Reachable_Inv sizeofElement hsz s hr).1 hc
  have hbad : buffer = none ∨ size < sizeofElement →
      Create sizeofElement s buffer size = .ok (.kInvalidArg, s) := by
    intro h
    unfold Create
    simp only [hc, h]
    simp
  refine ⟨⟨?_, fun h => ⟨s, hbad h⟩⟩, fun h => ⟨hbad h, hc, ?_⟩⟩
  · rintro ⟨s1, h1⟩
    by_contra hno
    unfold Create at h1
    simp only [hc, hno] at h1
    simp only [Bool.false_eq_true, if_false] at h1
    split at h1
    · cases h1
    · cases h1
  · simp [Capacity, hnew, Queue.new]

/-- C7 on the fresh queue with a null buffer. -/
theorem C7_create_invalid_arg_witness :
    (0 < 8 ∧ Reachable 8 exampleFresh ∧ IsCreated exampleFresh = false) ∧
    ((∃ s1, Create 8 exampleFresh none 32 = .ok (.kInvalidArg, s1)) ↔
      ((none : Option Nat) = none ∨ 32 < 8)) ∧
    ((none : Option Nat) = none ∨ 32 < 8 →
      Create 8 exampleFresh none 32 = .ok (.kInvalidArg, exampleFresh) ∧
      IsCreated exampleFresh = false ∧ Capacity exampleFresh = 0) :=
  ⟨⟨by decide, Reachable.fresh _, rfl⟩,
   C7_create_invalid_arg 8 exampleFresh none 32 (by decide) (Reachable.fresh _) rfl⟩

/-- C8: on a queue that is not created `Push` and `Pop` return `kInvalidCall`
and leave the state and the destination object as they were. -/
theorem C8_uncreated_push_pop (s : State T) (v : T) (destination : Option T)
    (hc : IsCreated s = false) :
    Push s v = .ok (.kInvalidCall, s) ∧
    Pop s destination = .ok (.kInvalidCall, s, destination) := by
  constructor
  · unfold Push; simp [hc]
  · unfold Pop; simp [hc]

/-- C8 on the fresh queue. -/
theorem C8_uncreated_push_pop_witness :
    IsCreated exampleFresh = false ∧
    Push exampleFresh 1 = .ok (.kInvalidCall, exampleFresh) ∧
    Pop exampleFresh (some 5) = .ok (.kInvalidCall, exampleFresh, some 5) :=
  ⟨rfl, C8_uncreated_push_pop exampleFresh 1 (some 5) rfl⟩

/-- C9, as stated, fails: `Destroy` on a freshly constructed queue, which is not
created, returns `kSuccess` and not `kInvalidCall`. -/
theorem C9_destroy_uncreated_counterexample :
    IsCreated exampleFresh = false ∧
    Destroy exampleFresh = .ok (.kSuccess, exampleFresh) ∧
    ¬ ∃ s1, Destroy exampleFresh = .ok (.kInvalidCall, s1) := by
  refine ⟨rfl, rfl, ?_⟩
  rintro ⟨s1, h1⟩
  rw [Destroy_uncreated exampleFresh rfl] at h1
  cases h1

/-- C9, amended: `Destroy` on a queue that is not created, before any `Create`
or after a previous `Destroy`, returns `kSuccess`; the queue has the field
values of the constructor afterwards and the memory is untouched. -/
theorem C9_destroy_uncreated (s : State T) (hc : IsCreated s = false) :
    Destroy s = .ok (.kSuccess, { self := Queue.new, mem := s.mem }) := by
  unfold Destroy
  rw [drain_uncreated _ s hc]
  rfl

/-- C9, amended, on the fresh queue. -/
theorem C9_destroy_uncreated_witness :
    IsCreated exampleFresh = false ∧
    Destroy exampleFresh = .ok (.kSuccess, { self := Queue.new, mem := exampleFresh.mem }) :=
  ⟨rfl, C9_destroy_uncreated exampleFresh rfl⟩

/-- C10: in every reachable state, created or not, empty or holding values,
`Destroy` returns `kSuccess` and leaves the queue uncreated with capacity 0,
count 0 and both cursors 0; a second `Destroy` returns `kSuccess` again and
gives the same state. -/
theorem C10_destroy_idempotent (sizeofElement : Nat) (s : State T)
    (hsz : 0 < sizeofElement) (hr : Reachable sizeofElement s) :
    ∃ s1, Destroy s = .ok (.kSuccess, s1) ∧ IsCreated s1 = false ∧ Capacity s1 = 0 ∧
      Count s1 = 0 ∧ s1.self.head_ = 0 ∧ s1.self.tail_ = 0 ∧
      Destroy s1 = .ok (.kSuccess, s1) := by
  obtain ⟨mem1, h1⟩ := Destroy_Inv s (Reachable_Inv sizeofElement hsz s hr)
  exact ⟨_, h1, rfl, rfl, rfl, rfl, rfl, Destroy_uncreated _ rfl⟩

/-- C10 on the queue of capacity 4 holding three values. -/
theorem C10_destroy_idempotent_witness :
    (0 < 8 ∧ Reachable 8 exampleFull) ∧
    ∃ s1, Destroy exampleFull = .ok (.kSuccess, s1) ∧ IsCreated s1 = false ∧
      Capacity s1 = 0 ∧ Count s1 = 0 ∧ s1.self.head_ = 0 ∧ s1.self.tail_ = 0 ∧
      Destroy s1 = .ok (.kSuccess, s1) :=
  have hr : Reachable 8 exampleFull :=
    Reachable.push _ _ 3 .kSuccess (Reachable.push _ _ 2 .kSuccess
      (Reachable.push _ _ 1 .kSuccess
        (Reachable.create exampleFresh exampleCreated (some 0) 32 .kSuccess
          (Reachable.fresh _) (by decide) rfl) rfl) rfl) rfl
  ⟨⟨by decide, hr⟩, C10_destroy_idempotent 8 exampleFull (by decide) hr⟩

/-! ## The positions of a cyclic range -/

theorem ringIndices_length (N : Nat) : ∀ k t, (ringIndices N t k).length = k := by
  intro k
  induction k with
  | zero => intro t; rfl
  | succ k ih => intro t; simp [ringIndices, ih]

theorem ringIndices_mem (N h : Nat) (hh : h < N) :
    ∀ k t, t < N → occupancy N t h = k →
      ∀ i, i ∈ ringIndices N t k ↔ (i < N ∧ Occupied t h i) := by
  intro k
  induction k with
  | zero =>
    intro t ht hk i
    have hth : t = h := by
      unfold occupancy at hk
      split at hk <;> omega
    subst hth
    simp only [ringIndices, List.not_mem_nil, false_iff]
    intro hi
    have := Occupied_self t t
    unfold Occupied at *
    split_ifs at * <;> omega
  | succ k ih =>
    intro t ht hk i
    have hne : t ≠ h := by
      intro e; subst e
      unfold occupancy at hk
      split at hk <;> omega
    have hocc := occupancy_pop N t h ht hh hne
    have hnext : (t + 1) % N < N := Nat.mod_lt _ (by omega)
    have hrec := ih ((t + 1) % N) hnext (by rw [succ_mod_ring N t ht]; omega) i
    rw [succ_mod_ring N t ht] at hrec
    simp only [ringIndices, List.mem_cons]
    rw [succ_mod_ring N t ht, hrec]
    constructor
    · intro hi
      rcases hi with hi | ⟨hi, ho⟩
      · subst hi; exact ⟨ht, Occupied_tail _ _ hne⟩
      · exact ⟨hi, ((Occupied_pop N t h i hh hi hne).mp ho).2⟩
    · rintro ⟨hi, ho⟩
      by_cases hit : i = t
      · exact Or.inl hit
      · exact Or.inr ⟨hi, (Occupied_pop N t h i hh hi hne).mpr ⟨hit, ho⟩⟩

theorem ringIndices_nodup (N h : Nat) (hh : h < N) :
    ∀ k t, t < N → occupancy N t h = k → (ringIndices N t k).Nodup := by
  intro k
  induction k with
  | zero => intro t _ _; simp [ringIndices]
  | succ k ih =>
    intro t ht hk
    have hne : t ≠ h := by
      intro e; subst e
      unfold occupancy at hk
      split at hk <;> omega
    have hocc := occupancy_pop N t h ht hh hne
    have hnext : (t + 1) % N < N := Nat.mod_lt _ (by omega)
    have hk1 : occupancy N ((t + 1) % N) h = k := by rw [succ_mod_ring N t ht]; omega
    simp only [ringIndices, List.nodup_cons]
    refine ⟨?_, ih _ hnext hk1⟩
    intro hmem
    have := (ringIndices_mem N h hh k _ hnext hk1 t).mp hmem
    rw [succ_mod_ring N t ht] at this
    exact ((Occupied_pop N t h t hh ht hne).mp this.2).1 rfl

/-! ## The drain loop on a consistent ring -/

theorem drain_ring_full :
    ∀ (n : Nat) (s : State T) (a : Nat) (cells : List (Element T)),
      s.self.created_ = true → s.self.array_ = some a → s.mem[a]? = some cells →
      RingInv s.self.array_size_ s.self.tail_ s.self.head_ s.self.count_ cells →
      occupancy s.self.array_size_ s.self.tail_ s.self.head_ < n →
      ∃ s1 cells1, Destroy.drain n s = .ok s1 ∧
        Destroy.drained n s = ringIndices s.self.array_size_ s.self.tail_
          (occupancy s.self.array_size_ s.self.tail_ s.self.head_) ∧
        s1.mem[a]? = some cells1 ∧ s.self.array_size_ ≤ cells1.length ∧
        ∀ i, i < s.self.array_size_ → ∀ e, cells1[i]? = some e → e.stored = false := by
  intro n
  induction n with
  | zero => intro s a cells _ _ _ _ h; omega
  | succ n ih =>
    intro s a cells hc ha hm R hocc
    have hlt : s.self.tail_ < cells.length := by
      have := R.fits; have := R.tail_lt; omega
    obtain ⟨e, hget⟩ : ∃ e, cells[s.self.tail_]? = some e :=
      ⟨_, List.getElem?_eq_getElem hlt⟩
    have hpop := Pop_ring s none a cells e hc ha hm R hget
    by_cases hth : s.self.tail_ = s.self.head_
    · simp only [hth, if_true] at hpop
      have h0 : occupancy s.self.array_size_ s.self.tail_ s.self.head_ = 0 := by
        unfold occupancy; rw [hth]; simp
      refine ⟨s, cells, ?_, ?_, hm, R.fits, ?_⟩
      · rw [Destroy.drain, hpop]
      · rw [Destroy.drained, hpop, h0]; rfl
      · intro i hi e1 he1
        have hno : ¬ Occupied s.self.tail_ s.self.head_ i := by
          rw [hth]; unfold Occupied; split <;> omega
        cases hb : e1.stored
        · rfl
        · exact absurd ((R.flags i hi e1 he1).mp hb) hno
    · simp only [hth, if_false] at hpop
      have R1 := RingInv_pop _ _ _ _ _ _ R hth hget
      have ho := occupancy_pop _ _ _ R.tail_lt R.head_lt hth
      have hstep : ∃ s2 : State T, Pop s none = .ok (.kSuccess, s2, none) ∧
          s2.self.created_ = true ∧ s2.self.array_ = some a ∧
          s2.self.array_size_ = s.self.array_size_ ∧ s2.self.head_ = s.self.head_ ∧
          s2.self.tail_ = (s.self.tail_ + 1) % s.self.array_size_ ∧
          ∃ cells2, s2.mem[a]? = some cells2 ∧
            RingInv s2.self.array_size_ s2.self.tail_ s2.self.head_ s2.self.count_ cells2 ∧
            occupancy s2.self.array_size_ s2.self.tail_ s2.self.head_ + 1
              = occupancy s.self.array_size_ s.self.tail_ s.self.head_ :=
        ⟨_, hpop, hc, ha, rfl, rfl, (succ_mod_ring _ _ R.tail_lt).symm, _,
          Memory.set_get _ _ _ _ hm, R1, ho⟩
      obtain ⟨s2, hp2, hc2, ha2, hN2, hh2, ht2, cells2, hm2, R2, ho2⟩ := hstep
      obtain ⟨s1, cells1, h1, h2, h3, h4, h5⟩ := ih s2 a cells2 hc2 ha2 hm2 R2 (by omega)
      refine ⟨s1, cells1, ?_, ?_, h3, by omega, fun i hi => h5 i (by omega)⟩
      · rw [Destroy.drain, hp2]; exact h1
      · rw [Destroy.drained, hp2]
        simp only
        rw [h2, ← ho2, ringIndices, hN2, hh2, ht2]

/-! ## Reachable states seen through the slots -/

theorem slots_ring (s : State T) (a : Nat) (cells : List (Element T))
    (ha : s.self.array_ = some a) (hm : s.mem[a]? = some cells) (i : Nat) :
    (slots s)[i]? = if i < s.self.array_size_ then cells[i]? else none := by
  simp only [slots, ha, hm, List.getElem?_take]

theorem slots_uncreated (s : State T) (h : s.self = Queue.new) : slots s = [] := by
  simp [slots, h, Queue.new]

theorem Inv_flags (s : State T) (hI : Inv s) (i : Nat) (e : Element T)
    (he : (slots s)[i]? = some e) :
    i < Capacity s ∧ (e.stored = true ↔ Occupied s.self.tail_ s.self.head_ i) := by
  cases hc : s.self.created_ with
  | false =>
    rw [slots_uncreated s (hI.1 hc)] at he
    simp at he
  | true =>
    obtain ⟨a, cells, ha, hm, R⟩ := hI.2 hc
    rw [slots_ring s a cells ha hm] at he
    split at he
    · next hi => exact ⟨hi, R.flags i hi e he⟩
    · cases he

theorem Push_total (s : State T) (v : T) (hI : Inv s) :
    ∃ c s1, Push s v = .ok (c, s1) := by
  cases hc : s.self.created_ with
  | false => exact ⟨.kInvalidCall, s, by simp [Push, IsCreated, hc]⟩
  | true =>
    obtain ⟨a, cells, ha, hm, R⟩ := hI.2 hc
    rw [Push_ring s v a cells hc ha hm R]
    split
    · exact ⟨_, _, rfl⟩
    · exact ⟨_, _, rfl⟩

theorem Pop_total (s : State T) (d : Option T) (hI : Inv s) :
    ∃ c s1 d1, Pop s d = .ok (c, s1, d1) := by
  cases hc : s.self.created_ with
  | false => exact ⟨.kInvalidCall, s, d, by simp [Pop, IsCreated, hc]⟩
  | true =>
    obtain ⟨a, cells, ha, hm, R⟩ := hI.2 hc
    have hlt : s.self.tail_ < cells.length := by
      have := R.fits; have := R.tail_lt; omega
    obtain ⟨e, hget⟩ : ∃ e, cells[s.self.tail_]? = some e :=
      ⟨_, List.getElem?_eq_getElem hlt⟩
    rw [Pop_ring s d a cells e hc ha hm R hget]
    split
    · exact ⟨_, _, _, rfl⟩
    · exact ⟨_, _, _, rfl⟩

theorem Destroy_pops_ring (s : State T) (a : Nat) (cells : List (Element T))
    (hc : s.self.created_ = true) (ha : s.self.array_ = some a) (hm : s.mem[a]? = some cells)
    (R : RingInv s.self.array_size_ s.self.tail_ s.self.head_ s.self.count_ cells) :
    ∃ (s1 : State T) (cells1 : List (Element T)),
      Destroy s = .ok (.kSuccess, { self := Queue.new, mem := s1.mem }) ∧
      Destroy.pops s = ringIndices s.self.array_size_ s.self.tail_
        (occupancy s.self.array_size_ s.self.tail_ s.self.head_) ∧
      s1.mem[a]? = some cells1 ∧ s.self.array_size_ ≤ cells1.length ∧
      ∀ i, i < s.self.array_size_ → ∀ e, cells1[i]? = some e → e.stored = false := by
  have hfuel : occupancy s.self.array_size_ s.self.tail_ s.self.head_
      < s.mem.extent s.self.array_ + 1 := by
    have h1 := occupancy_lt _ _ _ R.tail_lt R.head_lt
    have h2 := R.fits
    simp only [Memory.extent, ha, hm]
    omega
  obtain ⟨s1, cells1, h1, h2, h3, h4, h5⟩ := drain_ring_full _ s a cells hc ha hm R hfuel
  refine ⟨s1, cells1, ?_, h2, h3, h4, h5⟩
  unfold Destroy
  rw [h1]
  rfl

theorem exampleFull_reachable : Reachable 8 exampleFull :=
  Reachable.push _ _ 3 .kSuccess (Reachable.push _ _ 2 .kSuccess
    (Reachable.push _ _ 1 .kSuccess
      (Reachable.create exampleFresh exampleCreated (some 0) 32 .kSuccess
        (Reachable.fresh _) (by decide) rfl) rfl) rfl) rfl

/-! ## The claims, continued -/

/-- C11: on a created queue holding `k` values `Destroy` pops exactly `k` times:
the popped positions are pairwise different and are exactly the positions of
the slots that were full, so every resident value is destroyed once and no
empty slot is touched; afterwards every slot of the backing buffer has
`stored == false`, `Capacity()` is 0 and the queue is not created. -/
theorem C11_destroy_drains (sizeofElement : Nat) (s : State T)
    (hsz : 0 < sizeofElement) (hr : Reachable sizeofElement s)
    (hc : IsCreated s = true) :
    (Destroy.pops s).length = storedCount s ∧
    storedCount s < Capacity s ∧
    (Destroy.pops s).Nodup ∧
    (∀ i, i ∈ Destroy.pops s ↔ ∃ e, (slots s)[i]? = some e ∧ e.stored = true) ∧
    ∃ s1 a cells1, Destroy s = .ok (.kSuccess, s1) ∧
      s.self.array_ = some a ∧ s1.mem[a]? = some cells1 ∧ Capacity s ≤ cells1.length ∧
      (∀ e ∈ cells1.take (Capacity s), e.stored = false) ∧
      Capacity s1 = 0 ∧ IsCreated s1 = false := by
  obtain ⟨a, cells, ha, hm, R⟩ := (Reachable_Inv sizeofElement hsz s hr).2 hc
  obtain ⟨s1, cells1, h1, h2, h3, h4, h5⟩ := Destroy_pops_ring s a cells hc ha hm R
  have hcount : storedCount s = occupancy s.self.array_size_ s.self.tail_ s.self.head_ := by
    simp only [storedCount, slots, ha, hm]
    exact R.full
  refine ⟨?_, ?_, ?_, ?_, _, a, cells1, h1, ha, h3, h4, ?_, rfl, rfl⟩
  · rw [h2, ringIndices_length, hcount]
  · rw [hcount]; exact occupancy_lt _ _ _ R.tail_lt R.head_lt
  · rw [h2]; exact ringIndices_nodup _ _ R.head_lt _ _ R.tail_lt rfl
  · intro i
    rw [h2, ringIndices_mem _ _ R.head_lt _ _ R.tail_lt rfl i, slots_ring s a cells ha hm]
    constructor
    · rintro ⟨hi, ho⟩
      have hl : i < cells.length := by have := R.fits; omega
      refine ⟨cells[i], ?_, ?_⟩
      · simp [hi, List.getElem?_eq_getElem hl]
      · exact (R.flags i hi _ (List.getElem?_eq_getElem hl)).mpr ho
    · rintro ⟨e, he, hs⟩
      split at he
      · next hi => exact ⟨hi, (R.flags i hi e he).mp hs⟩
      · cases he
  · exact take_all_empty cells1 _ (fun j e he hj => h5 j hj e he)

/-- C11 on the queue of capacity 4 holding the values 1, 2, 3 in slots 0, 1, 2. -/
theorem C11_destroy_drains_witness :
    (0 < 8 ∧ Reachable 8 exampleFull ∧ IsCreated exampleFull = true) ∧
    Destroy.pops exampleFull = [0, 1, 2] ∧
    ((Destroy.pops exampleFull).length = storedCount exampleFull ∧
    storedCount exampleFull < Capacity exampleFull ∧
    (Destroy.pops exampleFull).Nodup ∧
    (∀ i, i ∈ Destroy.pops exampleFull ↔
      ∃ e, (slots exampleFull)[i]? = some e ∧ e.stored = true) ∧
    ∃ s1 a cells1, Destroy exampleFull = .ok (.kSuccess, s1) ∧
      exampleFull.self.array_ = some a ∧ s1.mem[a]? = some cells1 ∧
      Capacity exampleFull ≤ cells1.length ∧
      (∀ e ∈ cells1.take (Capacity exampleFull), e.stored = false) ∧
      Capacity s1 = 0 ∧ IsCreated s1 = false) :=
  ⟨⟨by decide, exampleFull_reachable, rfl⟩, rfl,
   C11_destroy_drains 8 exampleFull (by decide) exampleFull_reachable rfl⟩

/-- C12, as stated, fails: `Create` with `sizeof(Element) = 8` on a buffer of 8
bytes returns `kSuccess` and the capacity is 1. -/
theorem C12_capacity_two_counterexample :
    Create 8 exampleFresh (some 0) 8 = .ok (.kSuccess, exampleOneSlot) ∧
    Capacity exampleOneSlot = 1 ∧ ¬ 2 ≤ Capacity exampleOneSlot :=
  ⟨rfl, rfl, by decide⟩

/-- C12, amended: whenever `Create` returns `kSuccess` the capacity is at least 1. -/
theorem C12_capacity_one (sizeofElement : Nat) (s s1 : State T) (buffer : Option Nat)
    (size : Nat) (hsz : 0 < sizeofElement) (hlt : size < 4294967296)
    (h : Create sizeofElement s buffer size = .ok (.kSuccess, s1)) :
    1 ≤ Capacity s1 := by
  unfold Create at h
  by_cases hc : IsCreated s = true
  · simp [hc] at h
  · by_cases harg : buffer = none ∨ size < sizeofElement
    · simp [hc, harg] at h
    · have hge : sizeofElement ≤ size := by
        by_contra e; exact harg (Or.inr (by omega))
      have hu : u32 (size / sizeofElement) = size / sizeofElement :=
        u32_small _ (lt_of_le_of_lt (Nat.div_le_self _ _) hlt)
      have hpos : 0 < size / sizeofElement := Nat.div_pos hge hsz
      simp only [hc, harg, if_false, hu] at h
      generalize Create.init buffer 0 (size / sizeofElement) s.mem = r at h
      cases r with
      | error f => cases h
      | ok mem1 =>
        cases h
        exact hpos

/-- C12, amended, on the 8-byte buffer. -/
theorem C12_capacity_one_witness :
    (0 < 8 ∧ 8 < 4294967296 ∧
      Create 8 exampleFresh (some 0) 8 = .ok (.kSuccess, exampleOneSlot)) ∧
    1 ≤ Capacity exampleOneSlot :=
  ⟨⟨by decide, by decide, rfl⟩,
   C12_capacity_one 8 exampleFresh exampleOneSlot (some 0) 8 (by decide) (by decide) rfl⟩

theorem exampleCreated_reachable : Reachable 8 exampleCreated :=
  Reachable.create exampleFresh exampleCreated (some 0) 32 .kSuccess
    (Reachable.fresh _) (by decide) rfl

theorem Push_success_ring (s s1 : State T) (v : T) (hI : Inv s)
    (h : Push s v = .ok (.kSuccess, s1)) :
    ∃ a cells, s.self.created_ = true ∧ s.self.array_ = some a ∧ s.mem[a]? = some cells ∧
      RingInv s.self.array_size_ s.self.tail_ s.self.head_ s.self.count_ cells ∧
      s1 = { self := { s.self with
                       head_ := if s.self.head_ + 1 = s.self.array_size_ then 0
                                else s.self.head_ + 1
                       count_ := s.self.count_ + 1 }
             mem := s.mem.set a (cells.set s.self.head_ { stored := true, buffer := v }) } := by
  cases hc : s.self.created_ with
  | false => simp [Push, IsCreated, hc] at h
  | true =>
    obtain ⟨a, cells, ha, hm, R⟩ := hI.2 hc
    rw [Push_ring s v a cells hc ha hm R] at h
    split at h
    · cases h
      exact ⟨a, cells, rfl, ha, hm, R, rfl⟩
    · cases h

theorem Pop_success_ring (s s1 : State T) (d d1 : Option T) (hI : Inv s)
    (h : Pop s d = .ok (.kSuccess, s1, d1)) :
    ∃ a cells e, s.self.created_ = true ∧ s.self.array_ = some a ∧ s.mem[a]? = some cells ∧
      RingInv s.self.array_size_ s.self.tail_ s.self.head_ s.self.count_ cells ∧
      s.self.tail_ ≠ s.self.head_ ∧ cells[s.self.tail_]? = some e ∧
      s1 = { self := { s.self with
                       tail_ := if s.self.tail_ + 1 = s.self.array_size_ then 0
                                else s.self.tail_ + 1
                       count_ := s.self.count_ - 1 }
             mem := s.mem.set a
               (cells.set s.self.tail_ { stored := false, buffer := e.buffer }) } ∧
      d1 = d.map (fun _ => e.buffer) := by
  cases hc : s.self.created_ with
  | false => simp [Pop, IsCreated, hc] at h
  | true =>
    obtain ⟨a, cells, ha, hm, R⟩ := hI.2 hc
    have hlt : s.self.tail_ < cells.length := by
      have := R.fits; have := R.tail_lt; omega
    obtain ⟨e, hget⟩ : ∃ e, cells[s.self.tail_]? = some e :=
      ⟨_, List.getElem?_eq_getElem hlt⟩
    rw [Pop_ring s d a cells e hc ha hm R hget] at h
    split at h
    · cases h
    · next hne =>
      cases h
      exact ⟨a, cells, e, rfl, ha, hm, R, hne, hget, rfl, by cases d <;> rfl⟩

/-- C14: in every reachable state a slot has `stored == true` exactly when its
position lies in the cyclic range from `tail_` to `head_`; so the slot `Push`
hands to `Store` is empty and the slot `Pop` hands to `Load` is full, and no
call of `Push`, `Pop` or `Destroy` ends in a failed `assert`. -/
theorem C14_slot_preconditions (sizeofElement : Nat) (s : State T)
    (hsz : 0 < sizeofElement) (hr : Reachable sizeofElement s) :
    (∀ i e, (slots s)[i]? = some e →
      (e.stored = true ↔ Occupied s.self.tail_ s.self.head_ i)) ∧
    (∀ e v, (slots s)[s.self.head_]? = some e →
      e.Store v = .ok { stored := true, buffer := v }) ∧
    (∀ e d, s.self.tail_ ≠ s.self.head_ → (slots s)[s.self.tail_]? = some e →
      ∃ r, e.Load d = .ok r) ∧
    (∀ v, Push s v ≠ .error .assertFailed) ∧
    (∀ d, Pop s d ≠ .error .assertFailed) ∧
    Destroy s ≠ .error .assertFailed := by
  have hI := Reachable_Inv sizeofElement hsz s hr
  refine ⟨fun i e he => (Inv_flags s hI i e he).2, ?_, ?_, ?_, ?_, ?_⟩
  · intro e v he
    have h1 := (Inv_flags s hI _ e he).2
    have h2 := Occupied_self s.self.tail_ s.self.head_
    cases hb : e.stored with
    | false => simp [Element.Store, hb]
    | true => exact absurd (h1.mp hb) h2
  · intro e d hne he
    have h1 := (Inv_flags s hI _ e he).2.mpr (Occupied_tail _ _ hne)
    unfold Element.Load
    simp [h1]
  · intro v h
    obtain ⟨c, s1, h1⟩ := Push_total s v hI
    rw [h1] at h; cases h
  · intro d h
    obtain ⟨c, s1, d1, h1⟩ := Pop_total s d hI
    rw [h1] at h; cases h
  · intro h
    obtain ⟨m, h1⟩ := Destroy_Inv s hI
    rw [h1] at h; cases h

/-- C14 on the queue of capacity 4 holding three values. -/
theorem C14_slot_preconditions_witness :
    (0 < 8 ∧ Reachable 8 exampleFull) ∧
    (∀ i e, (slots exampleFull)[i]? = some e →
      (e.stored = true ↔ Occupied exampleFull.self.tail_ exampleFull.self.head_ i)) ∧
    (∀ e v, (slots exampleFull)[exampleFull.self.head_]? = some e →
      e.Store v = .ok { stored := true, buffer := v }) ∧
    (∀ e d, exampleFull.self.tail_ ≠ exampleFull.self.head_ →
      (slots exampleFull)[exampleFull.self.tail_]? = some e → ∃ r, e.Load d = .ok r) ∧
    (∀ v, Push exampleFull v ≠ .error .assertFailed) ∧
    (∀ d, Pop exampleFull d ≠ .error .assertFailed) ∧
    Destroy exampleFull ≠ .error .assertFailed :=
  ⟨⟨by decide, exampleFull_reachable⟩,
   C14_slot_preconditions 8 exampleFull (by decide) exampleFull_reachable⟩

theorem occupancy_mod (N t h : Nat) (ht : t < N) (hh : h < N) :
    occupancy N t h = (h + N - t) % N := by
  unfold occupancy
  split
  · next hle =>
    have : h + N - t = (h - t) + N := by omega
    rw [this, Nat.add_mod_right, Nat.mod_eq_of_lt (by omega)]
  · rw [Nat.mod_eq_of_lt (by omega)]

/-- C15: a successful `Push(v)` in a reachable state stores `v` in the slot at
the old `head_` and marks it full, moves `head_` to `(head_ + 1) mod capacity`,
adds exactly 1 to the count and changes nothing else: `tail_`, the capacity,
the created flag, the buffer pointers and every other slot are as before. -/
theorem C15_push_frame (sizeofElement : Nat) (s s1 : State T) (v : T)
    (hsz : 0 < sizeofElement) (hr : Reachable sizeofElement s)
    (h : Push s v = .ok (.kSuccess, s1)) :
    (slots s1)[s.self.head_]? = some { stored := true, buffer := v } ∧
    s1.self.head_ = (s.self.head_ + 1) % Capacity s ∧
    Count s1 = Count s + 1 ∧
    s1.self.tail_ = s.self.tail_ ∧ Capacity s1 = Capacity s ∧
    IsCreated s1 = IsCreated s ∧
    s1.self.buffer_ = s.self.buffer_ ∧ s1.self.buffer_size_ = s.self.buffer_size_ ∧
    s1.self.array_ = s.self.array_ ∧
    (∀ i, i ≠ s.self.head_ → (slots s1)[i]? = (slots s)[i]?) := by
  obtain ⟨a, cells, hc, ha, hm, R, rfl⟩ :=
    Push_success_ring s s1 v (Reachable_Inv sizeofElement hsz s hr) h
  have hl : s.self.head_ < cells.length := by
    have := R.fits; have := R.head_lt; omega
  refine ⟨?_, (succ_mod_ring _ _ R.head_lt).symm, rfl, rfl, rfl, rfl, rfl, rfl, rfl, ?_⟩
  · simp only [slots, ha, Memory.set_get _ _ _ _ hm, List.getElem?_take, R.head_lt, if_true]
    exact List.getElem?_set_self hl
  · intro i hi
    simp only [slots, ha, hm, Memory.set_get _ _ _ _ hm, List.getElem?_take,
      List.getElem?_set_ne (Ne.symm hi)]

/-- C15 on the created, empty queue of capacity 4: `Push(1)`. -/
theorem C15_push_frame_witness :
    (0 < 8 ∧ Reachable 8 exampleCreated ∧
      Push exampleCreated 1 = .ok (.kSuccess,
        { self := { exampleCreated.self with head_ := 1, count_ := 1 }
          mem := [[{ stored := true, buffer := 1 }, { stored := false, buffer := 0 },
                   { stored := false, buffer := 9 }, { stored := false, buffer := 1 }]] })) ∧
    ∃ s1 : State Nat,
      (slots s1)[exampleCreated.self.head_]? = some { stored := true, buffer := 1 } ∧
      s1.self.head_ = (exampleCreated.self.head_ + 1) % Capacity exampleCreated ∧
      Count s1 = Count exampleCreated + 1 ∧
      s1.self.tail_ = exampleCreated.self.tail_ ∧ Capacity s1 = Capacity exampleCreated ∧
      IsCreated s1 = IsCreated exampleCreated ∧
      s1.self.buffer_ = exampleCreated.self.buffer_ ∧
      s1.self.buffer_size_ = exampleCreated.self.buffer_size_ ∧
      s1.self.array_ = exampleCreated.self.array_ ∧
      (∀ i, i ≠ exampleCreated.self.head_ → (slots s1)[i]? = (slots exampleCreated)[i]?) :=
  ⟨⟨by decide, exampleCreated_reachable, rfl⟩, _,
   C15_push_frame 8 exampleCreated _ 1 (by decide) exampleCreated_reachable rfl⟩

/-- C16: a successful `Pop` in a reachable state empties the slot at the old
`tail_`, which was full, moves `tail_` to `(tail_ + 1) mod capacity`, takes
exactly 1 from the count and leaves `head_`, the capacity and every other slot
as they were; a non-null destination receives the value the slot held, and the
call with a null destination succeeds with the same resulting state. -/
theorem C16_pop_postcondition (sizeofElement : Nat) (s s1 : State T) (d d1 : Option T)
    (hsz : 0 < sizeofElement) (hr : Reachable sizeofElement s)
    (h : Pop s d = .ok (.kSuccess, s1, d1)) :
    ∃ e, (slots s)[s.self.tail_]? = some e ∧ e.stored = true ∧
      (slots s1)[s.self.tail_]? = some { stored := false, buffer := e.buffer } ∧
      s1.self.tail_ = (s.self.tail_ + 1) % Capacity s ∧
      Count s1 + 1 = Count s ∧
      s1.self.head_ = s.self.head_ ∧ Capacity s1 = Capacity s ∧
      IsCreated s1 = IsCreated s ∧
      (∀ i, i ≠ s.self.tail_ → (slots s1)[i]? = (slots s)[i]?) ∧
      (∀ x, d = some x → d1 = some e.buffer) ∧ (d = none → d1 = none) ∧
      (∀ d2, ∃ d3, Pop s d2 = .ok (.kSuccess, s1, d3)) ∧
      Pop s none = .ok (.kSuccess, s1, none) := by
  obtain ⟨a, cells, e, hc, ha, hm, R, hne, hget, rfl, rfl⟩ :=
    Pop_success_ring s s1 d d1 (Reachable_Inv sizeofElement hsz s hr) h
  have hl : s.self.tail_ < cells.length := by
    have := R.fits; have := R.tail_lt; omega
  have hst : e.stored = true := (R.flags _ R.tail_lt _ hget).mpr (Occupied_tail _ _ hne)
  have hcount : 0 < s.self.count_ := by
    rw [R.count]; unfold occupancy; have := R.tail_lt; have := R.head_lt
    split <;> omega
  have hpop : ∀ d2 : Option T, Pop s d2 = .ok (.kSuccess,
      { self := { s.self with
                  tail_ := if s.self.tail_ + 1 = s.self.array_size_ then 0
                           else s.self.tail_ + 1
                  count_ := s.self.count_ - 1 }
        mem := s.mem.set a (cells.set s.self.tail_ { stored := false, buffer := e.buffer }) },
      match d2 with
      | some _ => some e.buffer
      | none => none) := by
    intro d2
    rw [Pop_ring s d2 a cells e hc ha hm R hget]
    simp [hne]
  refine ⟨e, ?_, hst, ?_, (succ_mod_ring _ _ R.tail_lt).symm, ?_, rfl, rfl, rfl, ?_, ?_, ?_,
    fun d2 => ⟨_, hpop d2⟩, hpop none⟩
  · rw [slots_ring s a cells ha hm]
    simp only [R.tail_lt, if_true]
    exact hget
  · simp only [slots, ha, Memory.set_get _ _ _ _ hm, List.getElem?_take, R.tail_lt, if_true]
    exact List.getElem?_set_self hl
  · simp only [Count]; omega
  · intro i hi
    simp only [slots, ha, hm, Memory.set_get _ _ _ _ hm, List.getElem?_take,
      List.getElem?_set_ne (Ne.symm hi)]
  · intro x hx; subst hx; rfl
  · intro hx; subst hx; rfl

/-- C16 on the queue of capacity 4 holding 1, 2, 3: `Pop` into a destination. -/
theorem C16_pop_postcondition_witness :
    (0 < 8 ∧ Reachable 8 exampleFull ∧
      Pop exampleFull (some 0) = .ok (.kSuccess,
        { self := { exampleFull.self with tail_ := 1, count_ := 2 }
          mem := [[{ stored := false, buffer := 1 }, { stored := true, buffer := 2 },
                   { stored := true, buffer := 3 }, { stored := false, buffer := 1 }]] },
        some 1)) ∧
    ∃ (s1 : State Nat) (d1 : Option Nat) (e : Element Nat),
      (slots exampleFull)[exampleFull.self.tail_]? = some e ∧ e.stored = true ∧
      (slots s1)[exampleFull.self.tail_]? = some { stored := false, buffer := e.buffer } ∧
      s1.self.tail_ = (exampleFull.self.tail_ + 1) % Capacity exampleFull ∧
      Count s1 + 1 = Count exampleFull ∧
      s1.self.head_ = exampleFull.self.head_ ∧ Capacity s1 = Capacity exampleFull ∧
      IsCreated s1 = IsCreated exampleFull ∧
      (∀ i, i ≠ exampleFull.self.tail_ → (slots s1)[i]? = (slots exampleFull)[i]?) ∧
      (∀ x, some 0 = some x → d1 = some e.buffer) ∧ ((some 0 : Option Nat) = none → d1 = none) ∧
      (∀ d2, ∃ d3, Pop exampleFull d2 = .ok (.kSuccess, s1, d3)) ∧
      Pop exampleFull none = .ok (.kSuccess, s1, none) :=
  ⟨⟨by decide, exampleFull_reachable, rfl⟩, _, _,
   C16_pop_postcondition 8 exampleFull _ (some 0) _ (by decide) exampleFull_reachable rfl⟩

/-- C17: in every reachable state `Count()` is the number of slots with
`stored == true`; it is `(head_ - tail_) mod capacity` on a created queue and 0
on an uncreated one, it is 0 exactly when `tail_ == head_`, it stays below
`2^32`, and a successful `Pop` finds it positive and takes exactly 1 from it. -/
theorem C17_count_exact (sizeofElement : Nat) (s : State T)
    (hsz : 0 < sizeofElement) (hr : Reachable sizeofElement s) :
    Count s = storedCount s ∧
    (IsCreated s = true →
      Count s = (s.self.head_ + Capacity s - s.self.tail_) % Capacity s) ∧
    (IsCreated s = false → Count s = 0) ∧
    (Count s = 0 ↔ s.self.tail_ = s.self.head_) ∧
    Count s < 4294967296 ∧
    (∀ d s1 d1, Pop s d = .ok (.kSuccess, s1, d1) → 0 < Count s ∧ Count s1 = Count s - 1) := by
  have hI := Reachable_Inv sizeofElement hsz s hr
  have hpop : ∀ d s1 d1, Pop s d = .ok (.kSuccess, s1, d1) →
      0 < Count s ∧ Count s1 = Count s - 1 := by
    intro d s1 d1 h
    obtain ⟨a, cells, e, hc, ha, hm, R, hne, hget, rfl, _⟩ := Pop_success_ring s s1 d d1 hI h
    refine ⟨?_, rfl⟩
    simp only [Count]
    rw [R.count]; unfold occupancy; have := R.tail_lt; have := R.head_lt
    split <;> omega
  cases hc : s.self.created_ with
  | false =>
    have hnew := hI.1 hc
    refine ⟨?_, fun h => ?_, fun _ => ?_, ?_, ?_, hpop⟩
    · simp [Count, storedCount, slots_uncreated s hnew, hnew, Queue.new]
    · simp [IsCreated, hc] at h
    · simp [Count, hnew, Queue.new]
    · simp [Count, hnew, Queue.new]
    · simp [Count, hnew, Queue.new]
  | true =>
    obtain ⟨a, cells, ha, hm, R⟩ := hI.2 hc
    have hlt := occupancy_lt _ _ _ R.tail_lt R.head_lt
    have hsmall := R.small
    refine ⟨?_, fun _ => ?_, fun h => ?_, ?_, ?_, hpop⟩
    · simp only [Count, storedCount, slots, ha, hm]
      rw [R.count, R.full]
    · simp only [Count, Capacity]
      rw [R.count]; exact occupancy_mod _ _ _ R.tail_lt R.head_lt
    · simp [IsCreated, hc] at h
    · simp only [Count]
      rw [R.count]; unfold occupancy; have := R.tail_lt; have := R.head_lt
      split <;> constructor <;> intro <;> omega
    · simp only [Count]; rw [R.count]; omega

/-- C17 on the queue of capacity 4 holding three values. -/
theorem C17_count_exact_witness :
    (0 < 8 ∧ Reachable 8 exampleFull) ∧
    Count exampleFull = 3 ∧
    (Count exampleFull = storedCount exampleFull ∧
    (IsCreated exampleFull = true →
      Count exampleFull
        = (exampleFull.self.head_ + Capacity exampleFull - exampleFull.self.tail_)
            % Capacity exampleFull) ∧
    (IsCreated exampleFull = false → Count exampleFull = 0) ∧
    (Count exampleFull = 0 ↔ exampleFull.self.tail_ = exampleFull.self.head_) ∧
    Count exampleFull < 4294967296 ∧
    (∀ d s1 d1, Pop exampleFull d = .ok (.kSuccess, s1, d1) →
      0 < Count exampleFull ∧ Count s1 = Count exampleFull - 1)) :=
  ⟨⟨by decide, exampleFull_reachable⟩, rfl,
   C17_count_exact 8 exampleFull (by decide) exampleFull_reachable⟩

theorem Destroy_pops_uncreated (s : State T) (hc : IsCreated s = false) :
    Destroy.pops s = [] := by
  simp [Destroy.pops, Destroy.drained, Pop, hc]

/-- C18: in every reachable state the slot at `head_` is empty, so
`WaitForEmpty` returns at once after a `Push` reservation, and with
`tail_ != head_` the slot at `tail_` is full, so `WaitForStored` returns at
once after a `Pop` reservation; every `Push`, `Pop` and `Destroy` returns, and
the drain loop of `Destroy` makes at most `capacity - 1` successful pops. -/
theorem C18_termination (sizeofElement : Nat) (s : State T)
    (hsz : 0 < sizeofElement) (hr : Reachable sizeofElement s) :
    (∀ e, (slots s)[s.self.head_]? = some e → e.WaitForEmpty = .ok ()) ∧
    (∀ e, s.self.tail_ ≠ s.self.head_ → (slots s)[s.self.tail_]? = some e →
      e.WaitForStored = .ok ()) ∧
    (∀ v, ∃ c s1, Push s v = .ok (c, s1)) ∧
    (∀ d, ∃ c s1 d1, Pop s d = .ok (c, s1, d1)) ∧
    (∃ s1, Destroy s = .ok (.kSuccess, s1)) ∧
    (Destroy.pops s).length ≤ Capacity s - 1 := by
  have hI := Reachable_Inv sizeofElement hsz s hr
  refine ⟨?_, ?_, fun v => Push_total s v hI, fun d => Pop_total s d hI, ?_, ?_⟩
  · intro e he
    have h1 := (Inv_flags s hI _ e he).2
    have h2 := Occupied_self s.self.tail_ s.self.head_
    cases hb : e.stored with
    | false => simp [Element.WaitForEmpty, hb]
    | true => exact absurd (h1.mp hb) h2
  · intro e hne he
    have h1 := (Inv_flags s hI _ e he).2.mpr (Occupied_tail _ _ hne)
    simp [Element.WaitForStored, h1]
  · obtain ⟨m, h1⟩ := Destroy_Inv s hI
    exact ⟨_, h1⟩
  · cases hc : s.self.created_ with
    | false => rw [Destroy_pops_uncreated s hc]; simp
    | true =>
      obtain ⟨a, cells, ha, hm, R⟩ := hI.2 hc
      obtain ⟨s1, cells1, _, h2, _⟩ := Destroy_pops_ring s a cells hc ha hm R
      have := occupancy_lt _ _ _ R.tail_lt R.head_lt
      rw [h2, ringIndices_length]
      simp only [Capacity]
      omega

/-- C18 on the queue of capacity 4 holding three values. -/
theorem C18_termination_witness :
    (0 < 8 ∧ Reachable 8 exampleFull) ∧
    (Destroy.pops exampleFull).length = 3 ∧
    ((∀ e, (slots exampleFull)[exampleFull.self.head_]? = some e →
      e.WaitForEmpty = .ok ()) ∧
    (∀ e, exampleFull.self.tail_ ≠ exampleFull.self.head_ →
      (slots exampleFull)[exampleFull.self.tail_]? = some e → e.WaitForStored = .ok ()) ∧
    (∀ v, ∃ c s1, Push exampleFull v = .ok (c, s1)) ∧
    (∀ d, ∃ c s1 d1, Pop exampleFull d = .ok (c, s1, d1)) ∧
    (∃ s1, Destroy exampleFull = .ok (.kSuccess, s1)) ∧
    (Destroy.pops exampleFull).length ≤ Capacity exampleFull - 1) :=
  ⟨⟨by decide, exampleFull_reachable⟩, rfl,
   C18_termination 8 exampleFull (by decide) exampleFull_reachable⟩

/-- C19: in every reachable state a created queue has capacity at least 1 and
both cursors below the capacity, and an uncreated queue has capacity 0; so
`head_ + 1` and `tail_ + 1` do not overflow 32 bits, and no `Push` or `Pop`
divides by zero or leaves the backing array. -/
theorem C19_index_safety (sizeofElement : Nat) (s : State T)
    (hsz : 0 < sizeofElement) (hr : Reachable sizeofElement s) :
    (IsCreated s = true →
      1 ≤ Capacity s ∧ s.self.head_ < Capacity s ∧ s.self.tail_ < Capacity s ∧
      Capacity s ≤ s.mem.extent s.self.array_) ∧
    (IsCreated s = false → Capacity s = 0) ∧
    u32 (s.self.head_ + 1) = s.self.head_ + 1 ∧
    u32 (s.self.tail_ + 1) = s.self.tail_ + 1 ∧
    (∀ v, Push s v ≠ .error .divByZero ∧ Push s v ≠ .error .badAccess) ∧
    (∀ d, Pop s d ≠ .error .divByZero ∧ Pop s d ≠ .error .badAccess) := by
  have hI := Reachable_Inv sizeofElement hsz s hr
  have hpush : ∀ v, Push s v ≠ .error .divByZero ∧ Push s v ≠ .error .badAccess := by
    intro v
    obtain ⟨c, s1, h1⟩ := Push_total s v hI
    rw [h1]
    constructor <;> intro h <;> cases h
  have hpop : ∀ d, Pop s d ≠ .error .divByZero ∧ Pop s d ≠ .error .badAccess := by
    intro d
    obtain ⟨c, s1, d1, h1⟩ := Pop_total s d hI
    rw [h1]
    constructor <;> intro h <;> cases h
  cases hc : s.self.created_ with
  | false =>
    have hnew := hI.1 hc
    refine ⟨fun h => by simp [IsCreated, hc] at h, fun _ => by simp [Capacity, hnew, Queue.new],
      ?_, ?_, hpush, hpop⟩
    · simp [hnew, Queue.new, u32]
    · simp [hnew, Queue.new, u32]
  | true =>
    obtain ⟨a, cells, ha, hm, R⟩ := hI.2 hc
    have h1 := R.pos
    have h2 := R.small
    have h3 := R.head_lt
    have h4 := R.tail_lt
    refine ⟨fun _ => ⟨h1, h3, h4, ?_⟩, fun h => by simp [IsCreated, hc] at h,
      u32_small _ (by omega), u32_small _ (by omega), hpush, hpop⟩
    simp only [Capacity, Memory.extent, ha, hm]
    exact R.fits

/-- C19 on the queue of capacity 4 holding three values. -/
theorem C19_index_safety_witness :
    (0 < 8 ∧ Reachable 8 exampleFull) ∧
    (IsCreated exampleFull = true →
      1 ≤ Capacity exampleFull ∧ exampleFull.self.head_ < Capacity exampleFull ∧
      exampleFull.self.tail_ < Capacity exampleFull ∧
      Capacity exampleFull ≤ exampleFull.mem.extent exampleFull.self.array_) ∧
    (IsCreated exampleFull = false → Capacity exampleFull = 0) ∧
    u32 (exampleFull.self.head_ + 1) = exampleFull.self.head_ + 1 ∧
    u32 (exampleFull.self.tail_ + 1) = exampleFull.self.tail_ + 1 ∧
    (∀ v, Push exampleFull v ≠ .error .divByZero ∧ Push exampleFull v ≠ .error .badAccess) ∧
    (∀ d, Pop exampleFull d ≠ .error .divByZero ∧ Pop exampleFull d ≠ .error .badAccess) :=
  ⟨⟨by decide, exampleFull_reachable⟩,
   C19_index_safety 8 exampleFull (by decide) exampleFull_reachable⟩

/-- C20: for a buffer of at least one and less than two slots `Create` returns
`kSuccess` with capacity 1; on that queue every `Push` and every `Pop` returns
`kFail`, no slot is ever full and the state stays what `Create` left. -/
theorem C20_one_slot_queue (sizeofElement : Nat) (s : State T) (a size : Nat)
    (cells : List (Element T)) (ops : List (Op T))
    (hs : IsCreated s = false) (hm : s.mem[a]? = some cells)
    (hge : sizeofElement ≤ size) (hlt2 : size < 2 * sizeofElement)
    (hlt : size < 4294967296) (hfit : 1 ≤ cells.length) :
    ∃ s0, Create sizeofElement s (some a) size = .ok (.kSuccess, s0) ∧
      Capacity s0 = 1 ∧ storedCount s0 = 0 ∧
      (∀ v, Push s0 v = .ok (.kFail, s0)) ∧
      (∀ d, Pop s0 d = .ok (.kFail, s0, d)) ∧
      runOps s0 ops = .ok (ops.map Op.failed, s0) := by
  have hdiv : size / sizeofElement = 1 :=
    Nat.div_eq_of_lt_le (by omega) (by omega)
  obtain ⟨cells1, h1, h2, h3⟩ :=
    Create_ok sizeofElement s a size cells hs hm hge hlt (by omega)
  rw [hdiv] at h1 h3
  have hpush : ∀ v : T, Push
      { self := { buffer_ := some a, buffer_size_ := size, array_ := some a,
                  array_size_ := 1, created_ := true, head_ := 0, tail_ := 0, count_ := 0 }
        mem := s.mem.set a cells1 } v = .ok (.kFail,
      { self := { buffer_ := some a, buffer_size_ := size, array_ := some a,
                  array_size_ := 1, created_ := true, head_ := 0, tail_ := 0, count_ := 0 }
        mem := s.mem.set a cells1 }) := by
    intro v
    simp [Push, IsCreated, u32]
  have hpop : ∀ d : Option T, Pop
      { self := { buffer_ := some a, buffer_size_ := size, array_ := some a,
                  array_size_ := 1, created_ := true, head_ := 0, tail_ := 0, count_ := 0 }
        mem := s.mem.set a cells1 } d = .ok (.kFail,
      { self := { buffer_ := some a, buffer_size_ := size, array_ := some a,
                  array_size_ := 1, created_ := true, head_ := 0, tail_ := 0, count_ := 0 }
        mem := s.mem.set a cells1 }, d) := by
    intro d
    simp [Pop, IsCreated]
  refine ⟨_, h1, rfl, ?_, hpush, hpop, ?_⟩
  · simp only [storedCount, slots, Memory.set_get _ _ _ _ hm]
    exact countP_stored_zero cells1 1 h3
  · induction ops with
    | nil => rfl
    | cons op ops ih =>
      cases op with
      | push v => simp [runOps, hpush v, ih, Op.failed]
      | pop d => simp [runOps, hpop d, ih, Op.failed]

/-- C20 on the 8-byte buffer with `sizeof(Element) = 8`. -/
theorem C20_one_slot_queue_witness :
    (IsCreated exampleFresh = false ∧ exampleFresh.mem[0]? = some exampleRegion ∧
      8 ≤ 8 ∧ 8 < 2 * 8 ∧ 8 < 4294967296 ∧ 1 ≤ exampleRegion.length) ∧
    Create 8 exampleFresh (some 0) 8 = .ok (.kSuccess, exampleOneSlot) ∧
    ∃ s0, Create 8 exampleFresh (some 0) 8 = .ok (.kSuccess, s0) ∧
      Capacity s0 = 1 ∧ storedCount s0 = 0 ∧
      (∀ v, Push s0 v = .ok (.kFail, s0)) ∧
      (∀ d, Pop s0 d = .ok (.kFail, s0, d)) ∧
      runOps s0 [.push 1, .pop (some 0), .push 2]
        = .ok ([.push 1, .pop (some 0), .push 2].map Op.failed, s0) :=
  ⟨⟨rfl, rfl, by decide, by decide, by decide, by decide⟩, rfl,
   C20_one_slot_queue 8 exampleFresh 0 8 exampleRegion [.push 1, .pop (some 0), .push 2]
     rfl rfl (by decide) (by decide) (by decide) (by decide)⟩

/-! ## Interleaved execution -/

/-- A call of `Push` that runs its seven steps alone does what `Push` does. -/
theorem Push_solo (s s1 : State T) (v : T) (c : ErrorCode)
    (h : Push s v = .ok (c, s1)) :
    Thread.solo 7 s (.pushEntry v) = .ok (s1, .pushDone c) := by
  unfold Push at h
  cases hc : IsCreated s with
  | false =>
    simp [hc] at h
    obtain ⟨rfl, rfl⟩ := h
    simp [Thread.solo, Thread.step, hc]
  | true =>
    simp only [hc, Bool.not_true, Bool.false_eq_true, if_false] at h
    by_cases hN : s.self.array_size_ = 0
    · simp [hN] at h
    · simp only [hN, if_false] at h
      by_cases hfull : u32 (s.self.head_ + 1) % s.self.array_size_ = s.self.tail_
      · simp [hfull] at h
        obtain ⟨rfl, rfl⟩ := h
        simp [Thread.solo, Thread.step, hc, hN, hfull]
      · simp only [hfull, if_false] at h
        cases hat : s.mem.at s.self.array_ s.self.head_ with
        | error f => simp [hat] at h
        | ok e =>
          simp only [hat, Element.WaitForEmpty, Element.Store] at h
          cases hst : e.stored with
          | true => simp [hst] at h
          | false =>
            simp only [hst, Bool.false_eq_true, if_false] at h
            cases hput : s.mem.put s.self.array_ s.self.head_
                { stored := true, buffer := v } with
            | error f => simp [hput] at h
            | ok mem1 =>
              simp only [hput] at h
              cases h
              simp [Thread.solo, Thread.step, hc, hN, hfull, hat, hst, hput, Element.Store]

/-- A call of `Pop` that runs its seven steps alone does what `Pop` does. -/
theorem Pop_solo (s s1 : State T) (d d1 : Option T) (c : ErrorCode)
    (h : Pop s d = .ok (c, s1, d1)) :
    Thread.solo 7 s (.popEntry d) = .ok (s1, .popDone c d1) := by
  unfold Pop at h
  cases hc : IsCreated s with
  | false =>
    simp [hc] at h
    obtain ⟨rfl, rfl, rfl⟩ := h
    simp [Thread.solo, Thread.step, hc]
  | true =>
    simp only [hc, Bool.not_true, Bool.false_eq_true, if_false] at h
    by_cases hempty : s.self.tail_ = s.self.head_
    · simp [hempty] at h
      obtain ⟨rfl, rfl, rfl⟩ := h
      simp [Thread.solo, Thread.step, hc, hempty]
    · by_cases hN : s.self.array_size_ = 0
      · simp [hempty, hN] at h
      · simp only [hempty, hN, if_false] at h
        cases hat : s.mem.at s.self.array_ s.self.tail_ with
        | error f => simp [hat] at h
        | ok e =>
          simp only [hat, Element.WaitForStored, Element.Load] at h
          cases hst : e.stored with
          | false => simp [hst] at h
          | true =>
            simp only [hst, if_true] at h
            cases hput : s.mem.put s.self.array_ s.self.tail_
                { stored := false, buffer := e.buffer } with
            | error f => simp [hput] at h
            | ok mem1 =>
              simp only [hput] at h
              cases h
              simp only [Thread.solo, Thread.step, hc, hN, hempty, hat, hst, hput,
                Element.Load, Bool.not_true, Bool.false_eq_true, if_false, if_true]

/-- C13 fails on the code. On a queue of two slots call 0 (`Push(1)`) is delayed
between its check against `tail_` and its compare-and-swap while the other
calls take `head_` once around the ring; its compare-and-swap then succeeds on
the stale index. At the end every call has returned, three pushes and one pop
have returned `kSuccess`, `head_ == tail_`, so every further `Pop` returns
`kFail` and `Destroy` pops nothing, while two pushed values are still stored. -/
theorem C13_aba_lost_values :
    Create 8 exampleFresh (some 0) 16 = .ok (.kSuccess, exampleTwoSlots) ∧
    Config.run { state := exampleTwoSlots, threads := abaCalls } abaSchedule = .ok abaEnd ∧
    abaEnd.finished = true ∧ abaEnd.pushed = 3 ∧ abaEnd.popped = 1 ∧
    abaEnd.pushed ≠ abaEnd.popped ∧
    abaEnd.state.self.head_ = abaEnd.state.self.tail_ ∧
    (∀ d, Pop abaEnd.state d = .ok (.kFail, abaEnd.state, d)) ∧
    Destroy.pops abaEnd.state = [] ∧
    storedCount abaEnd.state = 2 ∧ Count abaEnd.state = 2 := by
  refine ⟨rfl, rfl, rfl, rfl, rfl, by decide, rfl, ?_, rfl, rfl, rfl⟩
  intro d
  simp [Pop, IsCreated, abaEnd, abaFinal]

/-- Under interleaving the `assert` of `Store` can fail: call 0, delayed before
its compare-and-swap, and call 6 both reserve slot 0 and both find it empty;
after call 0 has stored, `Store` of call 6 finds `stored == true`. -/
theorem interleaved_assert_fails :
    Config.run { state := exampleTwoSlots, threads := assertCalls } assertSchedule
      = .error .assertFailed :=
  rfl

end lockfree
end mmzq
